import Mathlib

/-
Verification development for the tb_mcp Quake-map core: the geometric data
model (map_types.py), the recursive-descent parser (map_parser.py) and the
writer (map_writer.py).

Embedding conventions:
* Python floats are modelled as exact rationals.  All rational arithmetic in
  the model goes through the kernel-computable operations qAdd, qSub, qMul,
  qDiv, qNeg (built on Rat.divInt, which the Lean kernel can reduce, unlike
  the irreducible Rat.add / Rat.mul); the bridge lemmas qAdd_eq etc. relate
  them to the ordinary field operations for symbolic reasoning.
* Python dicts (entity properties) are modelled as insertion-ordered
  association lists; assignment updates the first matching key in place,
  exactly like CPython preserves insertion position on overwrite.
* Mutating methods are modelled functionally: each returns the new value.
* Exceptions are modelled with Except.  ParseError carries message, line and
  column like the Python class.  Entity.origin can raise ValueError in Python
  (via float()) and is therefore Except-valued.
* The parser loops are driven by a fuel parameter (decremented only on loop
  iterations) so that every function is structurally recursive and hence
  kernel-computable; the top-level parse_map supplies fuel strictly larger
  than the input length, which is enough because every loop iteration
  consumes at least one character.
* math.sqrt appears only in Vec3.length / Vec3.normalized; these are
  modelled over the reals with Real.sqrt, and normalized produces a
  real-component vector Vec3R since exact normalization leaves the
  rationals.
-/

namespace Tb

/-! ### Kernel-computable rational arithmetic -/

/-- Addition on rationals, computed through Rat.divInt so the kernel can
evaluate it on literals. -/
def qAdd (a b : ℚ) : ℚ := Rat.divInt (a.num * b.den + b.num * a.den) (a.den * b.den)

/-- Subtraction on rationals, computed through Rat.divInt. -/
def qSub (a b : ℚ) : ℚ := Rat.divInt (a.num * b.den - b.num * a.den) (a.den * b.den)

/-- Multiplication on rationals, computed through Rat.divInt. -/
def qMul (a b : ℚ) : ℚ := Rat.divInt (a.num * b.num) (a.den * b.den)

/-- Division on rationals, computed through Rat.divInt. -/
def qDiv (a b : ℚ) : ℚ := Rat.divInt (a.num * b.den) (a.den * b.num)

/-- Negation on rationals, computed through Rat.divInt. -/
def qNeg (a : ℚ) : ℚ := Rat.divInt (-a.num) a.den

theorem qden_ne (a : ℚ) : ((a.den : ℚ)) ≠ 0 := by
  exact_mod_cast a.den_nz

@[simp] theorem qAdd_eq (a b : ℚ) : qAdd a b = a + b := by
  rw [qAdd, Rat.divInt_eq_div]
  conv_rhs => rw [← Rat.num_div_den a, ← Rat.num_div_den b]
  rw [div_add_div _ _ (qden_ne a) (qden_ne b)]
  push_cast
  ring_nf

@[simp] theorem qSub_eq (a b : ℚ) : qSub a b = a - b := by
  rw [qSub, Rat.divInt_eq_div]
  conv_rhs => rw [← Rat.num_div_den a, ← Rat.num_div_den b]
  rw [div_sub_div _ _ (qden_ne a) (qden_ne b)]
  push_cast
  ring_nf

@[simp] theorem qMul_eq (a b : ℚ) : qMul a b = a * b := by
  rw [qMul, Rat.divInt_eq_div]
  conv_rhs => rw [← Rat.num_div_den a, ← Rat.num_div_den b]
  rw [div_mul_div_comm]
  push_cast
  ring_nf

@[simp] theorem qNeg_eq (a : ℚ) : qNeg a = -a := by
  rw [qNeg, Rat.divInt_eq_div]
  conv_rhs => rw [← Rat.num_div_den a]
  push_cast
  rw [neg_div]

@[simp] theorem qDiv_eq (a b : ℚ) : qDiv a b = a / b := by
  rcases eq_or_ne b 0 with rb | rb
  · subst rb
    rw [qDiv]
    norm_num
  · rw [qDiv, Rat.divInt_eq_div]
    have hbn : ((b.num : ℚ)) ≠ 0 := by
      simpa [Rat.num_eq_zero] using rb
    conv_rhs => rw [← Rat.num_div_den a, ← Rat.num_div_den b]
    push_cast
    field_simp

/-! ### Data model: Vec3 (map_types.py) -/

/-- Vec3 from map_types.py: 3D vector, components modelled as exact
rationals. -/
structure Vec3 where
  x : ℚ := 0
  y : ℚ := 0
  z : ℚ := 0
deriving DecidableEq, Repr

namespace Vec3

/-- Vec3.__add__. -/
def add (a b : Vec3) : Vec3 := ⟨qAdd a.x b.x, qAdd a.y b.y, qAdd a.z b.z⟩

/-- Vec3.__sub__. -/
def sub (a b : Vec3) : Vec3 := ⟨qSub a.x b.x, qSub a.y b.y, qSub a.z b.z⟩

/-- Vec3.__mul__ (scalar multiplication). -/
def mul (a : Vec3) (s : ℚ) : Vec3 := ⟨qMul a.x s, qMul a.y s, qMul a.z s⟩

/-- Vec3.__truediv__ (scalar division). -/
def div (a : Vec3) (s : ℚ) : Vec3 := ⟨qDiv a.x s, qDiv a.y s, qDiv a.z s⟩

/-- Vec3.__neg__. -/
def neg (a : Vec3) : Vec3 := ⟨qNeg a.x, qNeg a.y, qNeg a.z⟩

/-- Vec3.dot. -/
def dot (a b : Vec3) : ℚ := qAdd (qAdd (qMul a.x b.x) (qMul a.y b.y)) (qMul a.z b.z)

/-- Vec3.cross. -/
def cross (a b : Vec3) : Vec3 :=
  ⟨qSub (qMul a.y b.z) (qMul a.z b.y),
   qSub (qMul a.z b.x) (qMul a.x b.z),
   qSub (qMul a.x b.y) (qMul a.y b.x)⟩

/-- The squared Euclidean length x*x + y*y + z*z, a rational. -/
def lengthSq (a : Vec3) : ℚ := qAdd (qAdd (qMul a.x a.x) (qMul a.y a.y)) (qMul a.z a.z)

/-- Vec3.length: math.sqrt of the squared length, a real number. -/
noncomputable def length (a : Vec3) : ℝ := Real.sqrt ((lengthSq a : ℚ) : ℝ)

/-- The zero vector, Vec3() in Python. -/
def zero : Vec3 := ⟨0, 0, 0⟩

@[simp] theorem add_x (a b : Vec3) : (add a b).x = a.x + b.x := by simp [add]
@[simp] theorem add_y (a b : Vec3) : (add a b).y = a.y + b.y := by simp [add]
@[simp] theorem add_z (a b : Vec3) : (add a b).z = a.z + b.z := by simp [add]
@[simp] theorem sub_x (a b : Vec3) : (sub a b).x = a.x - b.x := by simp [sub]
@[simp] theorem sub_y (a b : Vec3) : (sub a b).y = a.y - b.y := by simp [sub]
@[simp] theorem sub_z (a b : Vec3) : (sub a b).z = a.z - b.z := by simp [sub]

end Vec3

/-- Vectors with real components: the result type of Vec3.normalized, since
exact normalization divides by an irrational length in general. -/
structure Vec3R where
  x : ℝ
  y : ℝ
  z : ℝ

namespace Vec3R

/-- The zero vector over the reals. -/
def zero : Vec3R := ⟨0, 0, 0⟩

/-- Euclidean length of a real-component vector. -/
noncomputable def length (a : Vec3R) : ℝ := Real.sqrt (a.x * a.x + a.y * a.y + a.z * a.z)

end Vec3R

/-- Vec3.normalized: returns the zero vector when length < 1e-10, otherwise
the vector divided by its (real) length. -/
noncomputable def Vec3.normalized (a : Vec3) : Vec3R :=
  if a.length < 1e-10 then Vec3R.zero
  else ⟨(a.x : ℝ) / a.length, (a.y : ℝ) / a.length, (a.z : ℝ) / a.length⟩

/-! ### Data model: Face, Brush (map_types.py) -/

/-- Face from map_types.py: three plane points plus texture data. -/
structure Face where
  point1 : Vec3 := Vec3.zero
  point2 : Vec3 := Vec3.zero
  point3 : Vec3 := Vec3.zero
  texture : String := ""
  offset_u : ℚ := 0
  offset_v : ℚ := 0
  rotation : ℚ := 0
  scale_u : ℚ := 1
  scale_v : ℚ := 1
deriving DecidableEq, Repr

namespace Face

/-- Face.normal: normalize(cross(point2 - point1, point3 - point1)). -/
noncomputable def normal (f : Face) : Vec3R :=
  ((f.point2.sub f.point1).cross (f.point3.sub f.point1)).normalized

/-- Face.center: average of the three points. -/
def center (f : Face) : Vec3 := ((f.point1.add f.point2).add f.point3).div 3

/-- Face.move: shift all three points by offset. -/
def move (f : Face) (offset : Vec3) : Face :=
  { f with
    point1 := f.point1.add offset
    point2 := f.point2.add offset
    point3 := f.point3.add offset }

end Face

/-- Brush from map_types.py: an ordered list of faces. -/
structure Brush where
  faces : List Face := []
deriving DecidableEq, Repr

/-- Minimum of a nonempty list of rationals (Python min over a nonempty
sequence); returns 0 on the empty list, which the callers never pass. -/
def listMin : List ℚ → ℚ
  | [] => 0
  | q :: qs => qs.foldl min q

/-- Maximum of a nonempty list of rationals. -/
def listMax : List ℚ → ℚ
  | [] => 0
  | q :: qs => qs.foldl max q

namespace Brush

/-- The points of all faces of a brush, in face order (all_points in
Brush.bounds). -/
def allPoints (b : Brush) : List Vec3 :=
  b.faces.flatMap (fun f => [f.point1, f.point2, f.point3])

/-- Brush.bounds: componentwise min/max over every point of every face;
a brush with no faces returns (Vec3(), Vec3()), the zero box. -/
def bounds (b : Brush) : Vec3 × Vec3 :=
  if b.faces = [] then (Vec3.zero, Vec3.zero)
  else
    (⟨listMin (b.allPoints.map Vec3.x),
      listMin (b.allPoints.map Vec3.y),
      listMin (b.allPoints.map Vec3.z)⟩,
     ⟨listMax (b.allPoints.map Vec3.x),
      listMax (b.allPoints.map Vec3.y),
      listMax (b.allPoints.map Vec3.z)⟩)

/-- Brush.center: midpoint of bounds. -/
def center (b : Brush) : Vec3 :=
  let bd := b.bounds
  (bd.1.add bd.2).div 2

/-- Brush.move: move every face by offset. -/
def move (b : Brush) (offset : Vec3) : Brush :=
  ⟨b.faces.map (fun f => f.move offset)⟩

end Brush

/-! ### Python string and number primitives -/

/-- Python str.isspace for the ASCII whitespace characters (space, tab,
newline, carriage return, vertical tab, form feed).  Non-ASCII Unicode
whitespace is not modelled; none of the sources or claims involve it. -/
def pyIsSpace (c : Char) : Bool :=
  c = ' ' ∨ c = '\t' ∨ c = '\n' ∨ c = '\r' ∨ c.toNat = 11 ∨ c.toNat = 12

/-- ASCII decimal digit test. -/
def isDigitC (c : Char) : Bool := 48 ≤ c.toNat ∧ c.toNat ≤ 57

/-- Numeric value of an ASCII digit character. -/
def digitVal (c : Char) : ℕ := c.toNat - 48

/-- Value of a most-significant-first digit-character list. -/
def digitsToNat (ds : List Char) : ℕ := ds.foldl (fun a c => a * 10 + digitVal c) 0

/-- Least-significant-first decimal digits of n, driven by fuel (any fuel
greater than the digit count is enough; callers pass n + 1). -/
def natDigitsRev : ℕ → ℕ → List ℕ
  | 0, _ => []
  | _ + 1, 0 => []
  | fuel + 1, n + 1 => ((n + 1) % 10) :: natDigitsRev fuel ((n + 1) / 10)

/-- Decimal digit characters of a natural number, as Python str(n): at least
one digit, no leading zeros. -/
def charsOfNat (n : ℕ) : List Char :=
  if n = 0 then ['0'] else ((natDigitsRev (n + 1) n).reverse.map Nat.digitChar)

/-- Decimal rendering of an integer, as Python str(n). -/
def intChars (n : ℤ) : List Char :=
  (if n < 0 then ['-'] else []) ++ charsOfNat n.natAbs

/-- Python str.strip(): remove leading and trailing whitespace. -/
def pyStrip (cs : List Char) : List Char :=
  ((cs.dropWhile pyIsSpace).reverse.dropWhile pyIsSpace).reverse

/-- Helper for pySplitWS: acc is the current (reversed) pending word. -/
def splitWSAux : List Char → List Char → List String
  | [], acc => if acc = [] then [] else [String.mk acc.reverse]
  | c :: r, acc =>
    if pyIsSpace c then
      if acc = [] then splitWSAux r [] else String.mk acc.reverse :: splitWSAux r []
    else splitWSAux r (c :: acc)

/-- Python str.split() with no arguments: split on whitespace runs,
discarding empty pieces. -/
def pySplitWS (s : String) : List String := splitWSAux s.data []

/-- The rational n * 10 ^ e, built with Rat.divInt so the kernel can
evaluate it. -/
def mkDecQ (n : ℤ) (e : ℤ) : ℚ :=
  if 0 ≤ e then Rat.divInt (n * 10 ^ e.toNat) 1 else Rat.divInt n (10 ^ (-e).toNat)

/-- The optional leading sign of a Python float literal: the sign as 1 or
-1, plus the remaining characters. -/
def pySign (cs : List Char) : ℤ × List Char :=
  match cs with
  | [] => (1, [])
  | c :: r => if c = '+' then (1, r) else if c = '-' then (-1, r) else (1, c :: r)

/-- Python float(string) on decimal / scientific literals: optional sign,
digits with an optional fractional part, optional exponent; surrounding
whitespace is stripped.  (Python additionally accepts inf/nan spellings and
underscore separators; those forms never arise in this code base and are
not modelled - the model simply rejects them.)  Returns none where Python
raises ValueError.  pyFloatBody handles everything after the sign. -/
def pyFloatBody (sgn : ℤ) (body : List Char) : Option ℚ :=
  let ids := (body.span isDigitC).1
  let rest1 := (body.span isDigitC).2
  let fpart : List Char × List Char :=
    if rest1.head? = some '.' then rest1.tail.span isDigitC else ([], rest1)
  let fds := fpart.1
  let rest2 := fpart.2
  if ids = [] ∧ fds = [] then none
  else
    let mant : ℤ := sgn * (digitsToNat (ids ++ fds) : ℤ)
    match rest2 with
    | [] => some (mkDecQ mant (-(fds.length : ℤ)))
    | e :: rr =>
      if e = 'e' ∨ e = 'E' then
        let esgn := (pySign rr).1
        let eds := ((pySign rr).2.span isDigitC).1
        let erest := ((pySign rr).2.span isDigitC).2
        if eds = [] ∨ erest ≠ [] then none
        else some (mkDecQ mant (esgn * (digitsToNat eds : ℤ) - (fds.length : ℤ)))
      else none

/-- Python float of a string: strip whitespace, read the sign, then the
mantissa and optional exponent. -/
def pyFloat (s : String) : Option ℚ :=
  pyFloatBody (pySign (pyStrip s.data)).1 (pySign (pyStrip s.data)).2

/-- Python int() applied to a float: truncation toward zero, here on an
exact rational via truncating integer division. -/
def pyIntTrunc (q : ℚ) : ℤ := q.num.tdiv q.den

/-! ### Data model: Entity, MapFile (map_types.py) -/

/-- Python dict assignment d[k] = v on an insertion-ordered association
list: overwrite the first matching key in place, else append. -/
def pyDictSet (props : List (String × String)) (k v : String) : List (String × String) :=
  match props with
  | [] => [(k, v)]
  | (k1, v1) :: rest =>
    if k1 = k then (k, v) :: rest else (k1, v1) :: pyDictSet rest k v

/-- Entity from map_types.py: classname, insertion-ordered properties,
brushes. -/
structure Entity where
  classname : String := ""
  properties : List (String × String) := []
  brushes : List Brush := []
deriving DecidableEq, Repr

namespace Entity

/-- The Entity dataclass constructor followed by __post_init__: a non-empty
classname is mirrored into the properties dict (an empty classname is falsy
in Python and is not mirrored). -/
def make (classname : String) (properties : List (String × String))
    (brushes : List Brush) : Entity :=
  if classname = "" then ⟨classname, properties, brushes⟩
  else ⟨classname, pyDictSet properties ("classname") classname, brushes⟩

/-- Sum of a list of rationals (Python sum over a generator, starting
at 0). -/
def sumQ (l : List ℚ) : ℚ := l.foldl qAdd 0

/-- Average of the brush centers, used by the origin getter when no usable
origin property exists. -/
def centersAvg (brushes : List Brush) : Vec3 :=
  let centers := brushes.map Brush.center
  ⟨qDiv (sumQ (centers.map Vec3.x)) (centers.length : ℚ),
   qDiv (sumQ (centers.map Vec3.y)) (centers.length : ℚ),
   qDiv (sumQ (centers.map Vec3.z)) (centers.length : ℚ)⟩

/-- Entity.origin getter.  An explicit origin property with at least three
whitespace-separated fields is parsed with float() (which can raise
ValueError, modelled as Except.error); with fewer than three fields it is
ignored and the getter falls through to the brush-center average, or none
for a brushless entity. -/
def origin (e : Entity) : Except Unit (Option Vec3) :=
  let fallback : Except Unit (Option Vec3) :=
    if e.brushes = [] then .ok none else .ok (some (centersAvg e.brushes))
  match e.properties.lookup ("origin") with
  | some s =>
    let coords := pySplitWS s
    if 3 ≤ coords.length then
      match pyFloat (coords.getD 0 "") , pyFloat (coords.getD 1 ""),
            pyFloat (coords.getD 2 "") with
      | some a, some b, some c => .ok (some ⟨a, b, c⟩)
      | _, _, _ => .error ()
    else fallback
  | none => fallback

/-- Entity.origin setter: store "x y z" with integer-truncated
components. -/
def set_origin (e : Entity) (v : Vec3) : Entity :=
  { e with
    properties := pyDictSet e.properties ("origin")
      (String.mk (intChars (pyIntTrunc v.x) ++ ' ' :: intChars (pyIntTrunc v.y)
        ++ ' ' :: intChars (pyIntTrunc v.z))) }

/-- Entity.move_to: translate the brushes by the delta to the current
origin (when there is one and there are brushes), then store the new
origin. -/
def move_to (e : Entity) (new_origin : Vec3) : Except Unit Entity := do
  let current ← e.origin
  let e1 :=
    match current with
    | some cur =>
      if e.brushes = [] then e
      else { e with brushes := e.brushes.map (fun b => b.move (new_origin.sub cur)) }
    | none => e
  return set_origin e1 new_origin

/-- Entity.get_property with default none. -/
def get_property (e : Entity) (key : String) : Option String :=
  e.properties.lookup key

/-- Entity.set_property: write the dict entry and mirror "classname" into
the classname field. -/
def set_property (e : Entity) (key value : String) : Entity :=
  let e1 := { e with properties := pyDictSet e.properties key value }
  if key = "classname" then { e1 with classname := value } else e1

/-- Entity.bounds: combined bounds of all brushes, none when there are no
brushes. -/
def bounds (e : Entity) : Option (Vec3 × Vec3) :=
  if e.brushes = [] then none
  else
    let bs := e.brushes.map Brush.bounds
    some
      (⟨listMin ((bs.map Prod.fst).map Vec3.x),
        listMin ((bs.map Prod.fst).map Vec3.y),
        listMin ((bs.map Prod.fst).map Vec3.z)⟩,
       ⟨listMax ((bs.map Prod.snd).map Vec3.x),
        listMax ((bs.map Prod.snd).map Vec3.y),
        listMax ((bs.map Prod.snd).map Vec3.z)⟩)

end Entity

/-- MapFile from map_types.py: the ordered entity list. -/
structure MapFile where
  entities : List Entity := []
deriving DecidableEq, Repr

namespace MapFile

/-- MapFile.get_entity_at_index: the Python index is an int; the guard
0 <= index < len(entities) returns the entity, anything else (including
negative indices) returns None. -/
def get_entity_at_index (m : MapFile) (index : ℤ) : Option Entity :=
  if h : 0 ≤ index ∧ index < (m.entities.length : ℤ) then
    some (m.entities.get ⟨index.toNat, by omega⟩)
  else none

/-- MapFile.entity_count. -/
def entity_count (m : MapFile) : ℕ := m.entities.length

end MapFile

/-! ### Writer (map_writer.py) -/

/-- The integer n with round(q * 10^6) = n, computed as
floor(q * 10^6 + 1/2) via flooring integer division (Int.fdiv): the
rounding performed by the Python format f-string with spec .6f.  (CPython
rounds the underlying binary double half-to-even; on the exact rationals of
this model the two rules differ only on exact ties, which none of the
claims exercise.) -/
def r6i (q : ℚ) : ℤ := Int.fdiv (2 * q.num * 1000000 + q.den) (2 * q.den)

/-- q rounded to 6 decimal places, the value that format_float renders. -/
def r6 (q : ℚ) : ℚ := Rat.divInt (r6i q) 1000000

/-- Remove trailing zero characters (the rstrip of format_float). -/
def stripTrailingZeros (ds : List Char) : List Char :=
  (ds.reverse.dropWhile (fun c => c = '0')).reverse

/-- The 6 fractional digits of the .6f rendering, zero padded on the
left. -/
def padSixFrac (fp : ℕ) : List Char :=
  List.replicate (6 - (charsOfNat fp).length) '0' ++ charsOfNat fp

/-- format_float from map_writer.py: render with 6 digits after the
decimal point, then strip trailing zeros and a trailing lone decimal
point. -/
def format_float (q : ℚ) : List Char :=
  let n := r6i q
  let m := n.natAbs
  let ip := m / 1000000
  let fp := m % 1000000
  let fracStripped := stripTrailingZeros (padSixFrac fp)
  (if n < 0 then ['-'] else []) ++ charsOfNat ip
    ++ (if fracStripped = [] then [] else '.' :: fracStripped)

/-- One point of a face line, "( x y z )" (inlined in write_face in the
source). -/
def write_point (p : Vec3) : List Char :=
  '(' :: ' ' :: (format_float p.x ++ ' ' :: format_float p.y
    ++ ' ' :: format_float p.z ++ [' ', ')'])

/-- write_face from map_writer.py. -/
def write_face (f : Face) : List Char :=
  write_point f.point1 ++ ' ' :: write_point f.point2 ++ ' ' :: write_point f.point3
    ++ ' ' :: f.texture.data
    ++ ' ' :: format_float f.offset_u ++ ' ' :: format_float f.offset_v
    ++ ' ' :: format_float f.rotation ++ ' ' :: format_float f.scale_u
    ++ ' ' :: format_float f.scale_v

/-- Four spaces, one indent level. -/
def sp4 : List Char := [' ', ' ', ' ', ' ']

/-- The value escaping of write_entity: embedded double quotes become
backslash quote. -/
def escapeQuotes (v : List Char) : List Char :=
  v.flatMap (fun c => if c = '"' then ['\\', '"'] else [c])

/-- write_brush from map_writer.py: brace lines at the given indent, face
lines one level deeper, newline-joined. -/
def write_brush (b : Brush) (indent : List Char) : List Char :=
  indent ++ '{' :: '\n' :: (b.faces.flatMap (fun f => indent ++ sp4 ++ write_face f ++ ['\n']))
    ++ indent ++ ['}']

/-- One property line of write_entity. -/
def prop_line (kv : String × String) : List Char :=
  sp4 ++ '"' :: kv.1.data ++ '"' :: ' ' :: '"' :: (escapeQuotes kv.2.data ++ ['"', '\n'])

/-- write_entity from map_writer.py (the index parameter of the source is
unused there and omitted here): braces, property lines first, then brush
blocks, newline-joined. -/
def write_entity (e : Entity) : List Char :=
  '{' :: '\n' :: (e.properties.flatMap prop_line)
    ++ (e.brushes.flatMap (fun b => write_brush b sp4 ++ ['\n'])) ++ ['}']

/-- The character stream of write_map_to_string: entity blocks separated by
one blank line. -/
def write_map_chars : List Entity → List Char
  | [] => []
  | [e] => write_entity e
  | e :: e2 :: es => write_entity e ++ '\n' :: '\n' :: write_map_chars (e2 :: es)

/-- write_map_to_string from map_writer.py. -/
def write_map_to_string (m : MapFile) : String := String.mk (write_map_chars m.entities)

/-- The file contents produced by write_map: the string form plus the
single trailing newline written separately. -/
def write_map_file_content (m : MapFile) : String :=
  String.mk ((write_map_to_string m).data ++ ['\n'])

/-! ### Parser (map_parser.py)

The MapParser object state (source, pos, line, column) is modelled by the
suffix of the source still to be read plus the 1-based line and column
counters; each parsing method takes and returns such a state.  Loop bodies
always consume at least one character, so the fuel passed by parse_map
(input length + 1) never runs out on any input. -/

/-- ParseError from map_parser.py: message with line/column info.  The
message texts of the model are fixed English phrases; only their line and
column are specified behavior. -/
structure ParseError where
  message : String
  line : ℕ
  column : ℕ
deriving DecidableEq, Repr

/-- Parser position state: remaining input, current line and column
(both 1-based). -/
structure PSt where
  rest : List Char
  line : ℕ
  column : ℕ
deriving DecidableEq, Repr


/-- MapParser._peek: current character, or NUL at end of input. -/
def peekc (st : PSt) : Char :=
  match st.rest with
  | [] => '\x00'
  | c :: _ => c

/-- MapParser._advance: consume one character, updating line/column. -/
def advance1 (st : PSt) : PSt :=
  match st.rest with
  | [] => st
  | c :: r => if c = '\n' then ⟨r, st.line + 1, 1⟩ else ⟨r, st.line, st.column + 1⟩

/-- MapParser._expect: demand a specific next character. -/
def expectc (c : Char) (st : PSt) : Except ParseError (Unit × PSt) :=
  if peekc st = c then .ok ((), advance1 st)
  else .error ⟨"expected specific character", st.line, st.column⟩

/-- Character scan of _skip_whitespace: space, tab and carriage return
only (never newline), so the column just increments. -/
def skip_ws_core : List Char → ℕ → ℕ → PSt
  | [], l, c => ⟨[], l, c⟩
  | ch :: r, l, c =>
    if ch = ' ' ∨ ch = '\t' ∨ ch = '\r' then skip_ws_core r l (c + 1) else ⟨ch :: r, l, c⟩

/-- MapParser._skip_whitespace. -/
def skip_whitespace (st : PSt) : PSt := skip_ws_core st.rest st.line st.column

/-- Character scan of _skip_whitespace_and_comments.  The flag is true
while inside a // comment; the comment ends at the newline or carriage
return, which the whitespace branch of the source then consumes, so the
merged scan simply consumes it while leaving comment mode. -/
def skip_wsc_core : Bool → List Char → ℕ → ℕ → PSt
  | _, [], l, c => ⟨[], l, c⟩
  | true, ch :: r, l, c =>
    if ch = '\n' then skip_wsc_core false r (l + 1) 1
    else if ch = '\r' then skip_wsc_core false r l (c + 1)
    else skip_wsc_core true r l (c + 1)
  | false, ch :: r, l, c =>
    if ch = '/' ∧ r.head? = some '/' then skip_wsc_core true r l (c + 1)
    else if pyIsSpace ch then
      if ch = '\n' then skip_wsc_core false r (l + 1) 1
      else skip_wsc_core false r l (c + 1)
    else ⟨ch :: r, l, c⟩

/-- MapParser._skip_whitespace_and_comments. -/
def skip_whitespace_and_comments (st : PSt) : PSt :=
  skip_wsc_core false st.rest st.line st.column

/-- The content scan of _parse_quoted_string: characters up to (not
including) the next double quote or end of input. -/
def scanQuoted : List Char → ℕ → ℕ → List Char × PSt
  | [], l, c => ([], ⟨[], l, c⟩)
  | ch :: r, l, c =>
    if ch = '"' then ([], ⟨ch :: r, l, c⟩)
    else
      let res := if ch = '\n' then scanQuoted r (l + 1) 1 else scanQuoted r l (c + 1)
      (ch :: res.1, res.2)

/-- MapParser._parse_quoted_string. -/
def parse_quoted_string (st : PSt) : Except ParseError (String × PSt) := do
  let (_, st1) ← expectc '"' st
  let res := scanQuoted st1.rest st1.line st1.column
  let (_, st3) ← expectc '"' res.2
  pure (String.mk res.1, st3)

/-- The character run scan of _parse_token: characters until whitespace or
one of the brace and parenthesis delimiters.  The characters read never
include a newline, so the column just increments. -/
def scanToken : List Char → ℕ → ℕ → List Char × PSt
  | [], l, c => ([], ⟨[], l, c⟩)
  | ch :: r, l, c =>
    if pyIsSpace ch ∨ ch = '{' ∨ ch = '}' ∨ ch = '(' ∨ ch = ')' then ([], ⟨ch :: r, l, c⟩)
    else
      let res := scanToken r l (c + 1)
      (ch :: res.1, res.2)

/-- MapParser._parse_token: skip whitespace, then either a quoted string
or a maximal delimiter-free run; an empty run is an error at the current
position. -/
def parse_token (st : PSt) : Except ParseError (String × PSt) :=
  if peekc (skip_whitespace st) = '"' then parse_quoted_string (skip_whitespace st)
  else if (scanToken (skip_whitespace st).rest (skip_whitespace st).line
      (skip_whitespace st).column).1 = [] then
    .error ⟨"expected token", (skip_whitespace st).line, (skip_whitespace st).column⟩
  else
    .ok (String.mk (scanToken (skip_whitespace st).rest (skip_whitespace st).line
        (skip_whitespace st).column).1,
      (scanToken (skip_whitespace st).rest (skip_whitespace st).line
        (skip_whitespace st).column).2)

/-- A token converted by Python float(), as in the try blocks of
_parse_point and _parse_face: a conversion failure raises ParseError at
the parser position reached after reading the token. -/
def parse_number (msg : String) (st : PSt) : Except ParseError (ℚ × PSt) := do
  let (tok, st1) ← parse_token st
  match pyFloat tok with
  | some q => pure (q, st1)
  | none => .error ⟨msg, st1.line, st1.column⟩

/-- MapParser._parse_point. -/
def parse_point (st : PSt) : Except ParseError (Vec3 × PSt) := do
  let (_, st1) ← expectc '(' st
  let (x, st3) ← parse_number ("invalid coordinate in point") (skip_whitespace st1)
  let (y, st5) ← parse_number ("invalid coordinate in point") (skip_whitespace st3)
  let (z, st7) ← parse_number ("invalid coordinate in point") (skip_whitespace st5)
  let (_, st9) ← expectc ')' (skip_whitespace st7)
  pure (⟨x, y, z⟩, st9)

/-- MapParser._parse_face. -/
def parse_face (st : PSt) : Except ParseError (Face × PSt) := do
  let (p1, sta) ← parse_point st
  let (p2, stc) ← parse_point (skip_whitespace sta)
  let (p3, ste) ← parse_point (skip_whitespace stc)
  let (tex, stg) ← parse_token (skip_whitespace ste)
  let (u, sti) ← parse_number ("invalid numeric value in face") (skip_whitespace stg)
  let (v, stk) ← parse_number ("invalid numeric value in face") (skip_whitespace sti)
  let (rot, stm) ← parse_number ("invalid numeric value in face") (skip_whitespace stk)
  let (su, sto) ← parse_number ("invalid numeric value in face") (skip_whitespace stm)
  let (sv, stq) ← parse_number ("invalid numeric value in face") (skip_whitespace sto)
  pure (⟨p1, p2, p3, tex, u, v, rot, su, sv⟩, stq)

/-- The face loop of _parse_brush: while in bounds and the next character
is an open parenthesis, parse a face and skip trailing whitespace and
comments. -/
def face_loop : ℕ → List Face → PSt → Except ParseError (List Face × PSt)
  | 0, _, st => .error ⟨"fuel exhausted", st.line, st.column⟩
  | fuel + 1, acc, st =>
    if st.rest ≠ [] ∧ peekc st = '(' then do
      let (f, st1) ← parse_face st
      let st2 := skip_whitespace_and_comments st1
      face_loop fuel (acc ++ [f]) st2
    else .ok (acc, st)

/-- MapParser._parse_brush. -/
def parse_brush (fuel : ℕ) (st : PSt) : Except ParseError (Brush × PSt) := do
  let (_, st1) ← expectc '{' st
  let st2 := skip_whitespace_and_comments st1
  let (fs, st3) ← face_loop fuel [] st2
  let (_, st4) ← expectc '}' st3
  pure (⟨fs⟩, st4)

/-- MapParser._parse_property. -/
def parse_property (st : PSt) : Except ParseError ((String × String) × PSt) := do
  let (k, st1) ← parse_quoted_string st
  let st2 := skip_whitespace_and_comments st1
  let (v, st3) ← parse_quoted_string st2
  pure ((k, v), st3)

/-- The property loop of _parse_entity, folding set_property over the
parsed pairs. -/
def prop_loop : ℕ → Entity → PSt → Except ParseError (Entity × PSt)
  | 0, _, st => .error ⟨"fuel exhausted", st.line, st.column⟩
  | fuel + 1, ent, st =>
    if st.rest ≠ [] ∧ peekc st = '"' then do
      let (kv, st1) ← parse_property st
      let st2 := skip_whitespace_and_comments st1
      prop_loop fuel (ent.set_property kv.1 kv.2) st2
    else .ok (ent, st)

/-- The brush loop of _parse_entity. -/
def brush_loop : ℕ → Entity → PSt → Except ParseError (Entity × PSt)
  | 0, _, st => .error ⟨"fuel exhausted", st.line, st.column⟩
  | fuel + 1, ent, st =>
    if st.rest ≠ [] ∧ peekc st = '{' then do
      let (b, st1) ← parse_brush fuel st
      let st2 := skip_whitespace_and_comments st1
      brush_loop fuel { ent with brushes := ent.brushes ++ [b] } st2
    else .ok (ent, st)

/-- MapParser._parse_entity. -/
def parse_entity (fuel : ℕ) (st : PSt) : Except ParseError (Entity × PSt) := do
  let (_, st1) ← expectc '{' st
  let st2 := skip_whitespace_and_comments st1
  let (ent1, st3) ← prop_loop fuel (Entity.make ("") [] []) st2
  let (ent2, st4) ← brush_loop fuel ent1 st3
  let (_, st5) ← expectc '}' st4
  pure (ent2, st5)

/-- The entity loop of MapParser.parse. -/
def entity_loop : ℕ → List Entity → PSt → Except ParseError (List Entity × PSt)
  | 0, _, st => .error ⟨"fuel exhausted", st.line, st.column⟩
  | fuel + 1, acc, st =>
    if st.rest = [] then .ok (acc, st)
    else
      if (skip_whitespace_and_comments st).rest = [] then
        .ok (acc, skip_whitespace_and_comments st)
      else if peekc (skip_whitespace_and_comments st) = '{' then do
        let (e, st2) ← parse_entity fuel (skip_whitespace_and_comments st)
        let st3 := skip_whitespace_and_comments st2
        entity_loop fuel (acc ++ [e]) st3
      else .error ⟨"expected open brace to start entity",
        (skip_whitespace_and_comments st).line,
        (skip_whitespace_and_comments st).column⟩

/-- MapParser.parse on a character list: initial comment skip, then the
entity loop, starting at line 1, column 1. -/
def parse (source : List Char) : Except ParseError MapFile := do
  let (es, _) ← entity_loop (source.length + 1) []
    (skip_whitespace_and_comments ⟨source, 1, 1⟩)
  pure ⟨es⟩

/-- parse_map from map_parser.py: parse a source string. -/
def parse_map (s : String) : Except ParseError MapFile := parse s.data

end Tb

deriving instance DecidableEq for Except

namespace Tb

/-! ### Helper lemmas -/

theorem lookup_pyDictSet_self (props : List (String × String)) (k v : String) :
    (pyDictSet props k v).lookup k = some v := by
  induction props with
  | nil => simp [pyDictSet, List.lookup]
  | cons h t ih =>
    obtain ⟨k1, v1⟩ := h
    by_cases hk : k1 = k
    · subst hk
      simp [pyDictSet, List.lookup]
    · simp only [pyDictSet, if_neg hk, List.lookup]
      have : (k == k1) = false := by
        simpa [beq_iff_eq] using fun h => hk h.symm
      simp [this, ih]

theorem write_entity_last (e : Entity) : (write_entity e).getLast? = some '}' := by
  have h : write_entity e =
      ('{' :: '\n' :: ((e.properties.flatMap prop_line)
        ++ (e.brushes.flatMap (fun b => write_brush b sp4 ++ ['\n'])))) ++ ['}'] := by
    simp [write_entity]
  rw [h, List.getLast?_concat]

theorem getLast?_append_right {α : Type} (A B : List α) (h : B ≠ []) :
    (A ++ B).getLast? = B.getLast? := by
  induction A with
  | nil => rfl
  | cons a A ih =>
    rw [List.cons_append]
    obtain ⟨c0, t0, hct⟩ := List.exists_cons_of_ne_nil
      (show A ++ B ≠ [] from fun hc => h (List.append_eq_nil.mp hc).2)
    rw [hct, List.getLast?_cons_cons, ← hct, ih]

theorem write_map_chars_last : ∀ (es : List Entity) (e : Entity),
    (write_map_chars (e :: es)).getLast? = some '}'
  | [], e => by simpa [write_map_chars] using write_entity_last e
  | e2 :: es, e => by
    rw [show write_map_chars (e :: e2 :: es)
        = write_entity e ++ ('\n' :: '\n' :: write_map_chars (e2 :: es)) from rfl]
    rw [getLast?_append_right _ _ (by simp)]
    rw [show ('\n' :: '\n' :: write_map_chars (e2 :: es))
        = ['\n', '\n'] ++ write_map_chars (e2 :: es) from rfl]
    rw [getLast?_append_right]
    · exact write_map_chars_last es e2
    · have := write_map_chars_last es e2
      intro hc
      rw [hc] at this
      simp at this

/-! ### Claim C2 (write output ends with exactly one trailing newline) -/

/-- The property asserted by claim C2, for one document: the string
produced by the writer ends in a newline and in only one. -/
def endsWithOneNewline (s : String) : Prop :=
  s.data.getLast? = some '\n' ∧ s.data.dropLast.getLast? ≠ some '\n'

instance (s : String) : Decidable (endsWithOneNewline s) := by
  unfold endsWithOneNewline
  infer_instance

/-- C2 counterexample: the string returned by write_map_to_string for a
one-entity document is left-brace newline right-brace, which ends in the
closing brace, not in a newline.  The trailing newline is added only by
write_map when writing the file. -/
theorem claim_C2_counterexample :
    ¬ endsWithOneNewline (write_map_to_string ⟨[⟨"", [], []⟩]⟩) := by
  decide

/-- C2 (amended): write_map_to_string never ends with a newline (its last
character is the closing brace of the final entity, or the string is
empty); write_map then writes that string plus a single newline, so the
file contents end with exactly one trailing newline. -/
theorem claim_C2_amended (m : MapFile) :
    endsWithOneNewline (write_map_file_content m) ∧
    (write_map_to_string m).data.getLast? ≠ some '\n' := by
  have hdata : (write_map_file_content m).data = write_map_chars m.entities ++ ['\n'] := rfl
  have hlast : write_map_chars m.entities = [] ∨
      (write_map_chars m.entities).getLast? = some '}' := by
    cases hes : m.entities with
    | nil => exact Or.inl rfl
    | cons e es => exact Or.inr (write_map_chars_last es e)
  refine ⟨⟨?_, ?_⟩, ?_⟩
  · rw [hdata, List.getLast?_concat]
  · rw [hdata, List.dropLast_concat]
    rcases hlast with h | h <;> rw [h] <;> decide
  · show (write_map_chars m.entities).getLast? ≠ some '\n'
    rcases hlast with h | h <;> rw [h] <;> decide

/-! ### Claim C3 (a zero-face brush is a parse error) -/

/-- C3 counterexample: the parser accepts an entity containing the empty
brush braces and returns a brush with zero faces; no ParseError is
raised, contrary to the face-plus grammar of the spec. -/
theorem claim_C3_counterexample :
    parse_map ("\x7b \x7b \x7d \x7d") = .ok ⟨[⟨"", [], [⟨[]⟩]⟩]⟩ := by
  decide

/-- C3 (amended): the parser accepts a brush with zero faces: from any
state looking at an open brace followed directly by a close brace,
_parse_brush succeeds and returns a Brush with an empty face list (and a
complete entity around such a brush parses successfully). -/
theorem claim_C3_amended :
    (∀ (l c fuel : ℕ) (rest : List Char),
      parse_brush (fuel + 1) ⟨'{' :: '}' :: rest, l, c⟩ =
        .ok (⟨[]⟩, ⟨rest, l, c + 2⟩)) ∧
    parse_map ("\x7b\n\"classname\" \"light\"\n\x7b\n\x7d\n\x7d") =
      .ok ⟨[⟨"light", [("classname", "light")], [⟨[]⟩]⟩]⟩ := by
  constructor
  · intro l c fuel rest
    rfl
  · decide

/-! ### Claim C4 (zero-face brush bounds) -/

/-- A face whose three points are all the origin. -/
def degenerateFace : Face := ⟨Vec3.zero, Vec3.zero, Vec3.zero, "t", 0, 0, 0, 1, 1⟩

/-- C4 counterexample: Brush.bounds of a zero-face brush is the zero box
(Vec3(), Vec3()), exactly the bounds of an actual one-face brush sitting
at the origin; it is an ordinary numeric bounding box, not a
distinguishable no-bounds value. -/
theorem claim_C4_counterexample :
    Brush.bounds ⟨[]⟩ = Brush.bounds ⟨[degenerateFace]⟩ ∧
    (⟨[degenerateFace]⟩ : Brush).faces ≠ [] := by
  decide

/-- C4 (amended): a zero-face brush never crashes bounds(), but the result
is the zero numeric box (Vec3(), Vec3()), not a distinguishable empty
value; the explicit no-bounds result (None) exists only at the entity
level, where a brushless entity yields none. -/
theorem claim_C4_amended :
    Brush.bounds ⟨[]⟩ = (Vec3.zero, Vec3.zero) ∧
    (∀ (c : String) (props : List (String × String)),
      Entity.bounds ⟨c, props, []⟩ = none) := by
  refine ⟨by decide, ?_⟩
  intro c props
  rfl

/-! ### Claim C5 (classname field and classname property never disagree) -/

/-- C5 counterexample: constructing an Entity with an empty classname but
a classname property leaves the two disagreeing, because __post_init__
only mirrors a non-empty (truthy) classname. -/
theorem claim_C5_counterexample :
    (Entity.make ("") ([("classname", "foo")]) []).classname = "" ∧
    (Entity.make ("") ([("classname", "foo")]) []).properties.lookup ("classname")
      = some ("foo") ∧
    ("" : String) ≠ "foo" := by
  refine ⟨by decide, by decide, by decide⟩

/-- C5 (amended): set_property with key classname keeps field and property
in agreement, and so does construction with a non-empty classname; but
construction with an empty classname alongside an explicit classname
property (and likewise direct assignment to the plain classname field,
which performs no mirroring at all) can leave the two different. -/
theorem claim_C5_amended :
    (∀ (e : Entity) (v : String),
      (e.set_property ("classname") v).classname = v ∧
      (e.set_property ("classname") v).properties.lookup ("classname") = some v) ∧
    (∀ (c : String) (props : List (String × String)) (brs : List Brush), c ≠ "" →
      (Entity.make c props brs).classname = c ∧
      (Entity.make c props brs).properties.lookup ("classname") = some c) := by
  constructor
  · intro e v
    refine ⟨by simp [Entity.set_property], ?_⟩
    simp [Entity.set_property, lookup_pyDictSet_self]
  · intro c props brs hc
    refine ⟨by simp [Entity.make, hc], ?_⟩
    simp [Entity.make, hc, lookup_pyDictSet_self]

/-- C5 witness: the amended statement evaluated at a concrete entity and
classname. -/
theorem claim_C5_witness :
    (((⟨"", [], []⟩ : Entity).set_property ("classname") ("foo")).classname = "foo" ∧
     ((⟨"", [], []⟩ : Entity).set_property ("classname") ("foo")).properties.lookup
       ("classname") = some ("foo")) ∧
    ((Entity.make ("light") [] []).classname = "light" ∧
     (Entity.make ("light") [] []).properties.lookup ("classname") = some ("light")) :=
  ⟨claim_C5_amended.1 ⟨"", [], []⟩ ("foo"),
   claim_C5_amended.2 ("light") [] [] (by decide)⟩

/-! ### Claim C8 (parse error locality) -/

/-- The input of the parse error locality property: a face whose first
numeric field is the non-numeric token x. -/
def c8input : String :=
  "\x7b \"classname\" \"foo\" \x7b ( 0 0 0 ) ( 1 0 0 ) ( 0 1 0 ) bad_tex x y \x7d \x7d"

/-- C8 counterexample: the malformed token x occupies exactly column 61 of
line 1, but the reported ParseError column is 62 - the parser position
after consuming the token - which is not within the token itself. -/
theorem claim_C8_counterexample :
    parse_map c8input = .error ⟨"invalid numeric value in face", 1, 62⟩ ∧
    (62 : ℕ) ≠ 61 :=
  ⟨by decide, by decide⟩

/-- C8 (amended): parsing the locality input raises a ParseError at line 1,
column 62, the column immediately after the malformed token x (which sits
at column 61); the position is strictly inside the single-line document
(the document spans columns 1 to 67), not at its start or end. -/
theorem claim_C8_amended :
    parse_map c8input = .error ⟨"invalid numeric value in face", 1, 62⟩ ∧
    (1 : ℕ) < 62 ∧ (62 : ℕ) < 67 :=
  ⟨by decide, by decide, by decide⟩

/-! ### Claim C1 counterexample -/

/-- A valid document whose single face carries the two-character texture
consisting of two double-quote characters. -/
def d0c : MapFile :=
  ⟨[⟨"", [], [⟨[⟨⟨0, 0, 0⟩, ⟨1, 0, 0⟩, ⟨0, 1, 0⟩, "\"\"", 0, 0, 0, 1, 1⟩]⟩]⟩]⟩

/-- parse(write(d0c)): the quoted-empty texture parses as the empty
texture string. -/
def dc : MapFile :=
  ⟨[⟨"", [], [⟨[⟨⟨0, 0, 0⟩, ⟨1, 0, 0⟩, ⟨0, 1, 0⟩, "", 0, 0, 0, 1, 1⟩]⟩]⟩]⟩

/-- C1 counterexample: dc is produced by parse(write(d0c)), yet
parse(write(dc)) raises a ParseError (the empty texture is written as
nothing, so on re-parse the numeric fields shift into the texture slot and
the face runs out of tokens): write(parse(write(dc))) is not defined, let
alone equal to write(dc), so writing dc is not a fixed point. -/
theorem claim_C1_counterexample :
    parse_map (write_map_to_string d0c) = .ok dc ∧
    parse_map (write_map_to_string dc) = .error ⟨"expected token", 3, 49⟩ :=
  ⟨by decide, by decide⟩

end Tb

namespace Tb

/-! ### Claim C9 (get_entity_at_index bounds behavior) -/

/-- C9: get_entity_at_index returns the entity at position i for
0 <= i < entity count and None for every other integer index; in
particular a negative index yields None rather than indexing from the end
as raw Python list indexing would. -/
theorem claim_C9 (m : MapFile) (i : ℤ) :
    ((0 ≤ i ∧ i < (m.entities.length : ℤ)) →
      m.get_entity_at_index i = m.entities.get? i.toNat) ∧
    (¬(0 ≤ i ∧ i < (m.entities.length : ℤ)) → m.get_entity_at_index i = none) := by
  constructor
  · intro h
    unfold MapFile.get_entity_at_index
    rw [dif_pos h]
    have hlt : i.toNat < m.entities.length := by omega
    rw [List.get?_eq_get hlt]
  · intro h
    unfold MapFile.get_entity_at_index
    rw [dif_neg h]

/-- A concrete two-entity map for the C9 witness. -/
def m9 : MapFile :=
  ⟨[⟨"worldspawn", [("classname", "worldspawn")], []⟩,
    ⟨"light", [("classname", "light")], []⟩]⟩

/-- C9 witness: index 1 hits the second entity, index -1 and index 2 give
None. -/
theorem claim_C9_witness :
    (m9.get_entity_at_index 1 = m9.entities.get? (1 : ℤ).toNat) ∧
    m9.get_entity_at_index (-1) = none ∧
    m9.get_entity_at_index 2 = none :=
  ⟨(claim_C9 m9 1).1 (by decide), (claim_C9 m9 (-1)).2 (by decide),
   (claim_C9 m9 2).2 (by decide)⟩

/-! ### Claim C10 (short origin property is ignored) -/

/-- C10: when the origin property exists but splits into fewer than three
whitespace-separated fields, the origin getter ignores it: the result is
the brush-center average for an entity owning brushes, and none for a
brushless entity; no failure occurs. -/
theorem claim_C10 (e : Entity) (s : String)
    (hs : e.properties.lookup ("origin") = some s)
    (hlen : (pySplitWS s).length < 3) :
    e.origin = .ok (if e.brushes = [] then none else some (Entity.centersAvg e.brushes)) := by
  unfold Entity.origin
  rw [hs]
  have h3 : ¬ (3 ≤ (pySplitWS s).length) := by omega
  simp only [if_neg h3]
  split <;> rfl

/-- A concrete brush for the C10 witness. -/
def brush10 : Brush :=
  ⟨[⟨⟨0, 0, 0⟩, ⟨2, 2, 2⟩, ⟨4, 0, 0⟩, "t", 0, 0, 0, 1, 1⟩]⟩

/-- A concrete entity with a two-field origin property for the C10
witness. -/
def e10 : Entity :=
  ⟨"light", [("classname", "light"), ("origin", "1 2")], [brush10]⟩

/-- C10 witness: the two-field origin property "1 2" is ignored and the
brush-center average is returned. -/
theorem claim_C10_witness :
    e10.origin = .ok (if e10.brushes = [] then none else some (Entity.centersAvg e10.brushes)) :=
  claim_C10 e10 ("1 2") (by decide) (by decide)

/-! ### Claim C6 (entity move semantics) -/

/-- C6: moving an entity owning brushes whose current origin is (0,0,0) to
(100,0,0) translates every owned brush (hence every point of every face)
by exactly (100,0,0) via Brush.move, and stores the origin property string
"100 0 0" with integer-truncated components; classname is untouched. -/
theorem claim_C6 (e : Entity) (hbr : e.brushes ≠ [])
    (hor : e.origin = .ok (some ⟨0, 0, 0⟩)) :
    ∃ e1, e.move_to ⟨100, 0, 0⟩ = .ok e1 ∧
      e1.brushes = e.brushes.map (fun b => b.move ⟨100, 0, 0⟩) ∧
      e1.properties.lookup ("origin") = some ("100 0 0") ∧
      e1.classname = e.classname := by
  have hoff : (Vec3.mk 100 0 0).sub ⟨0, 0, 0⟩ = ⟨100, 0, 0⟩ := by
    simp [Vec3.sub]
  refine ⟨Entity.set_origin
    { e with brushes := e.brushes.map (fun b => b.move ⟨100, 0, 0⟩) } ⟨100, 0, 0⟩,
    ?_, ?_, ?_, ?_⟩
  · unfold Entity.move_to
    rw [hor]
    show Except.ok ((if e.brushes = [] then e
      else { e with
        brushes := (e.brushes.map (fun b => b.move ((Vec3.mk 100 0 0).sub ⟨0, 0, 0⟩))) }).set_origin
          ⟨100, 0, 0⟩) = _
    rw [if_neg hbr, hoff]
  · rfl
  · show (pyDictSet e.properties _ _).lookup _ = _
    have hstr : String.mk (intChars (pyIntTrunc (100 : ℚ)) ++ ' ' ::
        intChars (pyIntTrunc (0 : ℚ)) ++ ' ' :: intChars (pyIntTrunc (0 : ℚ)))
        = "100 0 0" := by decide
    rw [hstr, lookup_pyDictSet_self]
  · rfl

/-- A concrete entity with one brush at origin (0,0,0) for the C6
witness. -/
def e6 : Entity :=
  ⟨"func_door", [("classname", "func_door"), ("origin", "0 0 0")],
   [⟨[⟨⟨0, 0, 0⟩, ⟨1, 0, 0⟩, ⟨0, 1, 0⟩, "rock", 0, 0, 0, 1, 1⟩]⟩]⟩

/-- C6 witness: the move theorem evaluated on a concrete entity. -/
theorem claim_C6_witness :
    ∃ e1, e6.move_to ⟨100, 0, 0⟩ = .ok e1 ∧
      e1.brushes = e6.brushes.map (fun b => b.move ⟨100, 0, 0⟩) ∧
      e1.properties.lookup ("origin") = some ("100 0 0") ∧
      e1.classname = e6.classname :=
  claim_C6 e6 (by decide) (by decide)

/-! ### Claim C7 (degenerate face normal) -/

/-- Three points are collinear when the two difference vectors from the
first point are linearly dependent. -/
def collinearPts (p1 p2 p3 : Vec3) : Prop :=
  ∃ a b : ℚ, ¬(a = 0 ∧ b = 0) ∧
    ((p2.sub p1).mul a).add ((p3.sub p1).mul b) = Vec3.zero

theorem cross_eq_zero_of_dep (v w : Vec3) (a b : ℚ) (hab : ¬(a = 0 ∧ b = 0))
    (h : (v.mul a).add (w.mul b) = Vec3.zero) : v.cross w = Vec3.zero := by
  have hx : v.x * a + w.x * b = 0 := by
    have := congrArg Vec3.x h
    simpa [Vec3.add, Vec3.mul, Vec3.zero] using this
  have hy : v.y * a + w.y * b = 0 := by
    have := congrArg Vec3.y h
    simpa [Vec3.add, Vec3.mul, Vec3.zero] using this
  have hz : v.z * a + w.z * b = 0 := by
    have := congrArg Vec3.z h
    simpa [Vec3.add, Vec3.mul, Vec3.zero] using this
  have hc : a ≠ 0 ∨ b ≠ 0 := by tauto
  have c1 : v.y * w.z - v.z * w.y = 0 := by
    rcases hc with ha | hb
    · have : a * (v.y * w.z - v.z * w.y) = 0 := by linear_combination w.z * hy - w.y * hz
      exact (mul_eq_zero.mp this).resolve_left ha
    · have : b * (v.y * w.z - v.z * w.y) = 0 := by linear_combination v.y * hz - v.z * hy
      exact (mul_eq_zero.mp this).resolve_left hb
  have c2 : v.z * w.x - v.x * w.z = 0 := by
    rcases hc with ha | hb
    · have : a * (v.z * w.x - v.x * w.z) = 0 := by linear_combination w.x * hz - w.z * hx
      exact (mul_eq_zero.mp this).resolve_left ha
    · have : b * (v.z * w.x - v.x * w.z) = 0 := by linear_combination v.z * hx - v.x * hz
      exact (mul_eq_zero.mp this).resolve_left hb
  have c3 : v.x * w.y - v.y * w.x = 0 := by
    rcases hc with ha | hb
    · have : a * (v.x * w.y - v.y * w.x) = 0 := by linear_combination w.y * hx - w.x * hy
      exact (mul_eq_zero.mp this).resolve_left ha
    · have : b * (v.x * w.y - v.y * w.x) = 0 := by linear_combination v.x * hy - v.y * hx
      exact (mul_eq_zero.mp this).resolve_left hb
  simp only [Vec3.cross, Vec3.zero, qSub_eq, qMul_eq, Vec3.mk.injEq]
  exact ⟨c1, c2, c3⟩

/-- The zero vector normalizes to the zero real vector (its length 0 is
below the 1e-10 epsilon). -/
theorem normalized_zero : Vec3.zero.normalized = Vec3R.zero := by
  unfold Vec3.normalized
  rw [if_pos]
  unfold Vec3.length
  have h0 : Vec3.lengthSq Vec3.zero = 0 := by decide
  rw [h0]
  push_cast
  rw [Real.sqrt_zero]
  norm_num

/-- C7: a face with collinear points has normal equal to the zero vector
and the normal has length 0; the computation is total (no exception and,
in this exact-arithmetic model, no NaN exists at all). -/
theorem claim_C7 (f : Face) (h : collinearPts f.point1 f.point2 f.point3) :
    f.normal = Vec3R.zero ∧ f.normal.length = 0 := by
  obtain ⟨a, b, hab, hdep⟩ := h
  have hcross := cross_eq_zero_of_dep _ _ a b hab hdep
  unfold Face.normal
  rw [hcross, normalized_zero]
  refine ⟨rfl, ?_⟩
  unfold Vec3R.length Vec3R.zero
  norm_num

/-- A concrete degenerate face on the line through (0,0,0) with direction
(1,2,3), for the C7 witness. -/
def f7 : Face := ⟨⟨0, 0, 0⟩, ⟨1, 2, 3⟩, ⟨2, 4, 6⟩, "t", 0, 0, 0, 1, 1⟩

/-- C7 witness: the degenerate-face theorem evaluated at a concrete
collinear face, with the dependency witness (2, -1) checked by decide. -/
theorem claim_C7_witness : f7.normal = Vec3R.zero ∧ f7.normal.length = 0 :=
  claim_C7 f7 ⟨2, -1, by decide, by decide⟩

end Tb

namespace Tb

/-! ### Round-trip machinery: Except reduction -/

theorem bindE_ok {ε α β : Type} (a : α) (f : α → Except ε β) :
    (Except.ok a >>= f) = f a := rfl

theorem bindE_err {ε α β : Type} (e : ε) (f : α → Except ε β) :
    ((Except.error e : Except ε α) >>= f) = Except.error e := rfl

/-! ### Round-trip machinery: decimal digits -/

/-- Value of a least-significant-first digit list. -/
def ofDigitsRev (ds : List ℕ) : ℕ := ds.foldr (fun d acc => acc * 10 + d) 0

theorem ofDigitsRev_cons (d : ℕ) (ds : List ℕ) :
    ofDigitsRev (d :: ds) = (ofDigitsRev ds) * 10 + d := rfl

theorem natDigitsRev_spec : ∀ (fuel n : ℕ), n < fuel →
    ofDigitsRev (natDigitsRev fuel n) = n
  | 0, _, h => absurd h (by omega)
  | _ + 1, 0, _ => rfl
  | fuel + 1, n + 1, h => by
    have hdiv : (n + 1) / 10 < n + 1 := Nat.div_lt_self (by omega) (by omega)
    rw [natDigitsRev, ofDigitsRev_cons, natDigitsRev_spec fuel ((n + 1) / 10) (by omega)]
    have := Nat.div_add_mod (n + 1) 10
    omega

theorem natDigitsRev_lt : ∀ (fuel n : ℕ), ∀ d ∈ natDigitsRev fuel n, d < 10
  | 0, _ => by simp [natDigitsRev]
  | _ + 1, 0 => by simp [natDigitsRev]
  | fuel + 1, n + 1 => by
    intro d hd
    rw [natDigitsRev] at hd
    rcases List.mem_cons.mp hd with h | h
    · omega
    · exact natDigitsRev_lt fuel ((n + 1) / 10) d h

theorem natDigitsRev_length_le : ∀ (fuel n k : ℕ), n < 10 ^ k →
    (natDigitsRev fuel n).length ≤ k
  | 0, _, _, _ => by simp [natDigitsRev]
  | _ + 1, 0, _, _ => by simp [natDigitsRev]
  | fuel + 1, n + 1, k, hk => by
    rw [natDigitsRev]
    have hk1 : 1 ≤ k := by
      by_contra hc
      have : k = 0 := by omega
      subst this
      have h1 : (10 : ℕ) ^ 0 = 1 := pow_zero 10
      omega
    have hdiv : (n + 1) / 10 < 10 ^ (k - 1) := by
      have h10 : 10 ^ k = 10 ^ (k - 1) * 10 := by
        rw [← pow_succ]
        congr 1
        omega
      rw [h10] at hk
      omega
    have := natDigitsRev_length_le fuel ((n + 1) / 10) (k - 1) hdiv
    simp only [List.length_cons]
    omega

theorem digitVal_digitChar (d : ℕ) (h : d < 10) : digitVal (Nat.digitChar d) = d := by
  interval_cases d <;> decide

theorem isDigitC_digitChar (d : ℕ) (h : d < 10) : isDigitC (Nat.digitChar d) = true := by
  interval_cases d <;> decide

theorem digitsToNat_from (B : List Char) : ∀ (a : ℕ),
    B.foldl (fun a c => a * 10 + digitVal c) a = a * 10 ^ B.length + digitsToNat B := by
  induction B with
  | nil => intro a; simp [digitsToNat]
  | cons c B ih =>
    intro a
    show List.foldl _ (a * 10 + digitVal c) B = _
    rw [ih (a * 10 + digitVal c)]
    have h2 : digitsToNat (c :: B) = digitVal c * 10 ^ B.length + digitsToNat B := by
      show List.foldl _ (0 * 10 + digitVal c) B = _
      rw [ih (0 * 10 + digitVal c)]
      ring_nf
    rw [h2]
    simp [List.length_cons, pow_succ]
    ring

theorem digitsToNat_append (A B : List Char) :
    digitsToNat (A ++ B) = digitsToNat A * 10 ^ B.length + digitsToNat B := by
  unfold digitsToNat
  rw [List.foldl_append]
  exact digitsToNat_from B _

theorem digitsToNat_rev_map (xs : List ℕ) (hx : ∀ d ∈ xs, d < 10) :
    digitsToNat (xs.reverse.map Nat.digitChar) = ofDigitsRev xs := by
  induction xs with
  | nil => rfl
  | cons d xs ih =>
    rw [List.reverse_cons, List.map_append, digitsToNat_append]
    have hd : d < 10 := hx d (by simp)
    have hxs : ∀ d ∈ xs, d < 10 := fun e he => hx e (by simp [he])
    rw [ih hxs]
    simp [digitsToNat, digitVal_digitChar d hd, ofDigitsRev_cons]

theorem digitsToNat_charsOfNat (n : ℕ) : digitsToNat (charsOfNat n) = n := by
  by_cases h : n = 0
  · subst h
    decide
  · unfold charsOfNat
    rw [if_neg h, digitsToNat_rev_map _ (natDigitsRev_lt (n + 1) n),
      natDigitsRev_spec (n + 1) n (by omega)]

theorem charsOfNat_ne_nil (n : ℕ) : charsOfNat n ≠ [] := by
  unfold charsOfNat
  split
  · simp
  · simp only [ne_eq, List.map_eq_nil_iff, List.reverse_eq_nil_iff]
    intro hc
    have := natDigitsRev_spec (n + 1) n (by omega)
    rw [hc] at this
    simp [ofDigitsRev] at this
    omega

theorem charsOfNat_digits (n : ℕ) : ∀ c ∈ charsOfNat n, isDigitC c = true := by
  unfold charsOfNat
  split
  · intro c hc
    simp at hc
    subst hc
    decide
  · intro c hc
    simp only [List.mem_map, List.mem_reverse] at hc
    obtain ⟨d, hd, rfl⟩ := hc
    exact isDigitC_digitChar d (natDigitsRev_lt _ _ d hd)

theorem charsOfNat_length_le (n k : ℕ) (hk : 1 ≤ k) (h : n < 10 ^ k) :
    (charsOfNat n).length ≤ k := by
  unfold charsOfNat
  split
  · simpa using hk
  · simp only [List.length_map, List.length_reverse]
    exact natDigitsRev_length_le (n + 1) n k h

end Tb

namespace Tb

/-! ### Round-trip machinery: span, strip, replicate -/

theorem span_loop_spec (p : Char → Bool) : ∀ (A B rs : List Char),
    (∀ c ∈ A, p c) → (∀ c, B.head? = some c → p c = false) →
    List.span.loop p (A ++ B) rs = (rs.reverse ++ A, B)
  | [], B, rs, _, hB => by
    cases B with
    | nil => simp [List.span.loop]
    | cons b t =>
      have hb : p b = false := hB b rfl
      simp [List.span.loop, hb]
  | a :: A, B, rs, hA, hB => by
    have ha : p a = true := hA a (by simp)
    rw [List.cons_append, List.span.loop, ha]
    rw [span_loop_spec p A B (a :: rs) (fun c hc => hA c (by simp [hc])) hB]
    simp

theorem span_eq_of (p : Char → Bool) (A B : List Char)
    (hA : ∀ c ∈ A, p c) (hB : ∀ c, B.head? = some c → p c = false) :
    (A ++ B).span p = (A, B) := by
  unfold List.span
  rw [span_loop_spec p A B [] hA hB]
  rfl

theorem dropWhile_eq_self_of (p : Char → Bool) (l : List Char)
    (h : ∀ c, l.head? = some c → p c = false) : l.dropWhile p = l := by
  cases l with
  | nil => rfl
  | cons c t =>
    rw [List.dropWhile_cons, h c rfl]
    simp

theorem pyStrip_eq_self (l : List Char) (h : ∀ c ∈ l, pyIsSpace c = false) :
    pyStrip l = l := by
  unfold pyStrip
  rw [dropWhile_eq_self_of _ l (fun c hc => h c (by
    cases l with
    | nil => simp at hc
    | cons a t =>
      simp at hc
      simp [hc]))]
  rw [dropWhile_eq_self_of _ l.reverse (fun c hc => h c
    (List.mem_reverse.mp (List.mem_of_mem_head? hc)))]
  exact List.reverse_reverse l

theorem digitsToNat_replicate_zeros (j : ℕ) :
    digitsToNat (List.replicate j '0') = 0 := by
  induction j with
  | zero => rfl
  | succ j ih =>
    rw [List.replicate_succ', digitsToNat_append, ih]
    decide

/-- stripTrailingZeros removes exactly a run of trailing zero characters. -/
theorem stripTrailingZeros_spec (X : List Char) :
    ∃ j, X = stripTrailingZeros X ++ List.replicate j '0' := by
  unfold stripTrailingZeros
  refine ⟨(X.reverse.takeWhile (fun c => c = '0')).length, ?_⟩
  have hrepl : (X.reverse.takeWhile (fun c => c = '0')).reverse
      = List.replicate (X.reverse.takeWhile (fun c => c = '0')).length '0' := by
    rw [List.eq_replicate_iff]
    refine ⟨by simp, ?_⟩
    intro b hb
    rw [List.mem_reverse] at hb
    have := List.mem_takeWhile_imp hb
    simpa using this
  conv_lhs => rw [← List.reverse_reverse X,
    ← List.takeWhile_append_dropWhile (fun c => c = '0') X.reverse]
  rw [List.reverse_append, hrepl]

/-! ### Round-trip machinery: rounding -/

theorem r6i_spec (q : ℚ) : r6i q = ⌊q * 1000000 + 1 / 2⌋ := by
  have key : q * 1000000 + 1 / 2
      = ((2 * q.num * 1000000 + (q.den : ℤ) : ℤ) : ℚ) / ((2 * q.den : ℕ) : ℚ) := by
    conv_lhs => rw [← Rat.num_div_den q]
    have hden : ((q.den : ℚ)) ≠ 0 := qden_ne q
    push_cast
    field_simp
    ring
  rw [key, Rat.floor_intCast_div_natCast]
  unfold r6i
  rw [Int.fdiv_eq_ediv _ (by positivity)]
  congr 1

theorem mkDecQ_neg_natCast (n : ℤ) (k : ℕ) :
    mkDecQ n (-(k : ℤ)) = (n : ℚ) / 10 ^ k := by
  unfold mkDecQ
  by_cases hk : k = 0
  · subst hk
    rw [if_pos (by norm_num), Rat.divInt_eq_div]
    push_cast
    norm_num
  · rw [if_neg (by omega), Rat.divInt_eq_div]
    have : ((-(-(k : ℤ))).toNat) = k := by omega
    rw [this]
    push_cast
    ring_nf

theorem r6_eq_div (q : ℚ) : r6 q = ((r6i q : ℤ) : ℚ) / 1000000 := by
  unfold r6
  rw [Rat.divInt_eq_div]
  norm_num

theorem r6i_r6 (q : ℚ) : r6i (r6 q) = r6i q := by
  rw [r6i_spec (r6 q), r6_eq_div]
  have h1 : ((r6i q : ℤ) : ℚ) / 1000000 * 1000000 = ((r6i q : ℤ) : ℚ) := by
    field_simp
  rw [h1, Int.floor_int_add]
  norm_num

theorem format_float_r6 (q : ℚ) : format_float (r6 q) = format_float q := by
  unfold format_float
  rw [r6i_r6]

end Tb

namespace Tb

/-! ### Round-trip machinery: character classes -/

theorem pyIsSpace_toNat (c : Char) (h : pyIsSpace c = true) :
    c.toNat = 32 ∨ c.toNat = 9 ∨ c.toNat = 10 ∨ c.toNat = 13 ∨
    c.toNat = 11 ∨ c.toNat = 12 := by
  unfold pyIsSpace at h
  simp only [decide_eq_true_eq, Bool.or_eq_true] at h
  rcases h with h | h | h | h | h | h
  · rw [h]; decide
  · rw [h]; decide
  · rw [h]; decide
  · rw [h]; decide
  · omega
  · omega

theorem isDigitC_ranges (c : Char) (h : isDigitC c = true) :
    48 ≤ c.toNat ∧ c.toNat ≤ 57 := by
  unfold isDigitC at h
  simpa using h

theorem char_ne_of_toNat {c d : Char} (h : c.toNat ≠ d.toNat) : c ≠ d :=
  fun e => h (by rw [e])

theorem isDigitC_not_space (c : Char) (h : isDigitC c = true) :
    pyIsSpace c = false := by
  rcases Bool.eq_false_or_eq_true (pyIsSpace c) with ht | hf
  · have h1 := pyIsSpace_toNat c ht
    have h2 := isDigitC_ranges c h
    omega
  · exact hf

theorem isDigitC_ne_signs (c : Char) (h : isDigitC c = true) :
    c ≠ '+' ∧ c ≠ '-' := by
  have h2 := isDigitC_ranges c h
  exact ⟨char_ne_of_toNat (by simp; omega), char_ne_of_toNat (by simp; omega)⟩

theorem pySign_no_sign (cs : List Char)
    (h : ∀ c, cs.head? = some c → c ≠ '+' ∧ c ≠ '-') : pySign cs = (1, cs) := by
  cases cs with
  | nil => rfl
  | cons c r =>
    show (if c = '+' then ((1 : ℤ), r) else if c = '-' then (-1, r) else (1, c :: r))
      = (1, c :: r)
    rw [if_neg (h c rfl).1, if_neg (h c rfl).2]

end Tb

namespace Tb

/-! ### Round-trip machinery: pyFloat on rendered numbers -/

theorem mkDecQ_zero (x : ℤ) : mkDecQ x 0 = (x : ℚ) := by
  unfold mkDecQ
  rw [if_pos (by norm_num), Rat.divInt_eq_div]
  push_cast
  norm_num

theorem pyFloatBody_int (sgn : ℤ) (A : List Char) (hA : A ≠ [])
    (hdig : ∀ c ∈ A, isDigitC c = true) :
    pyFloatBody sgn A = some (mkDecQ (sgn * (digitsToNat A : ℤ)) 0) := by
  unfold pyFloatBody
  have hspanA : A.span isDigitC = (A, []) := by
    have := span_eq_of isDigitC A [] hdig (by intro c hc; simp at hc)
    simpa using this
  rw [hspanA]
  simp [hA]

theorem pyFloatBody_frac (sgn : ℤ) (A F : List Char) (hA : A ≠ [])
    (hdigA : ∀ c ∈ A, isDigitC c = true) (hdigF : ∀ c ∈ F, isDigitC c = true) :
    pyFloatBody sgn (A ++ '.' :: F)
      = some (mkDecQ (sgn * (digitsToNat (A ++ F) : ℤ)) (-(F.length : ℤ))) := by
  unfold pyFloatBody
  have hspanA : (A ++ '.' :: F).span isDigitC = (A, '.' :: F) :=
    span_eq_of isDigitC A ('.' :: F) hdigA (by
      intro c hc
      simp at hc
      rw [← hc]
      decide)
  have hspanF : F.span isDigitC = (F, []) := by
    have := span_eq_of isDigitC F [] hdigF (by intro c hc; simp at hc)
    simpa using this
  rw [hspanA]
  simp only [List.head?_cons, Option.some.injEq, List.tail_cons, if_pos rfl, hspanF]
  show (if A = [] ∧ F = [] then (none : Option ℚ)
    else some (mkDecQ (sgn * (digitsToNat (A ++ F) : ℕ)) (-(F.length : ℤ))))
    = some (mkDecQ (sgn * (digitsToNat (A ++ F) : ℤ)) (-(F.length : ℤ)))
  rw [if_neg (by simp [hA])]

set_option maxHeartbeats 1000000 in
theorem pyFloat_format_float (q : ℚ) :
    pyFloat (String.mk (format_float q)) = some (r6 q) := by
  have hfplt : ((r6i q).natAbs % 1000000) < 1000000 := by omega
  set n := r6i q with hn
  set m := n.natAbs with hm
  set ip := m / 1000000 with hip
  set fp := m % 1000000 with hfp
  have hpadlen : (padSixFrac fp).length = 6 := by
    unfold padSixFrac
    have hle := charsOfNat_length_le fp 6 (by norm_num)
      (by rw [show (10 : ℕ) ^ 6 = 1000000 from by norm_num]; exact hfplt)
    simp only [List.length_append, List.length_replicate]
    omega
  obtain ⟨j, hsplit⟩ := stripTrailingZeros_spec (padSixFrac fp)
  set fracS := stripTrailingZeros (padSixFrac fp) with hfracS
  set k := fracS.length with hk
  have hkj : k + j = 6 := by
    have hlen := congrArg List.length hsplit
    simp only [List.length_append, List.length_replicate, hpadlen] at hlen
    omega
  set ds := digitsToNat fracS with hds
  have hfpval : fp = ds * 10 ^ j := by
    have h1 : digitsToNat (padSixFrac fp) = fp := by
      unfold padSixFrac
      rw [digitsToNat_append, digitsToNat_replicate_zeros, digitsToNat_charsOfNat]
      ring
    rw [hsplit, digitsToNat_append, digitsToNat_replicate_zeros, List.length_replicate] at h1
    rw [← hds] at h1
    omega
  have hfracS_digits : ∀ c ∈ fracS, isDigitC c = true := by
    intro c hc
    have hmem : c ∈ padSixFrac fp := by
      rw [hsplit]
      exact List.mem_append_left _ hc
    unfold padSixFrac at hmem
    rcases List.mem_append.mp hmem with h | h
    · rw [List.eq_of_mem_replicate h]
      decide
    · exact charsOfNat_digits fp c h
  set TAIL := (if fracS = [] then ([] : List Char) else '.' :: fracS) with hTAIL
  have hchars : format_float q
      = (if n < 0 then ['-'] else []) ++ charsOfNat ip ++ TAIL := rfl
  have hTAILchars : ∀ c ∈ TAIL, isDigitC c = true ∨ c = '.' := by
    intro c hc
    rw [hTAIL] at hc
    split at hc
    · simp at hc
    · rcases List.mem_cons.mp hc with h | h
      · exact Or.inr h
      · exact Or.inl (hfracS_digits c h)
  have hnospace : ∀ c ∈ format_float q, pyIsSpace c = false := by
    intro c hc
    rw [hchars] at hc
    rcases List.mem_append.mp hc with h | h
    · rcases List.mem_append.mp h with h1 | h1
      · split at h1
        · simp at h1
          rw [h1]
          decide
        · simp at h1
      · exact isDigitC_not_space c (charsOfNat_digits ip c h1)
    · rcases hTAILchars c h with h1 | h1
      · exact isDigitC_not_space c h1
      · rw [h1]
        decide
  have hstrip : pyStrip (format_float q) = format_float q :=
    pyStrip_eq_self _ hnospace
  have hmval : 1000000 * ip + fp = m := Nat.div_add_mod m 1000000
  -- the value produced from the unsigned body, for either sign
  have hbody : ∀ sgn : ℤ, sgn * (m : ℤ) = n →
      pyFloatBody sgn (charsOfNat ip ++ TAIL) = some (r6 q) := by
    intro sgn hsgn
    by_cases hfS : fracS = []
    · have hTe : TAIL = [] := by rw [hTAIL, if_pos hfS]
      have hds0 : ds = 0 := by rw [hds, hfS]; rfl
      have hfp0 : fp = 0 := by rw [hfpval, hds0]; ring
      have hmip : m = ip * 1000000 := by omega
      rw [hTe, List.append_nil,
        pyFloatBody_int sgn _ (charsOfNat_ne_nil ip) (charsOfNat_digits ip),
        digitsToNat_charsOfNat, mkDecQ_zero, r6_eq_div]
      congr 1
      rw [eq_div_iff (by norm_num : (1000000 : ℚ) ≠ 0)]
      have hcast : (n : ℚ) = sgn * (m : ℚ) := by
        rw [← hsgn]
        push_cast
        ring
      rw [hcast, hmip]
      push_cast
      ring
    · have hTe : TAIL = '.' :: fracS := by rw [hTAIL, if_neg hfS]
      rw [hTe, pyFloatBody_frac sgn _ _ (charsOfNat_ne_nil ip)
        (charsOfNat_digits ip) hfracS_digits,
        digitsToNat_append, digitsToNat_charsOfNat, mkDecQ_neg_natCast, r6_eq_div]
      congr 1
      have hnatEq : m * 10 ^ k = (ip * 10 ^ k + ds) * 1000000 := by
        have h1 : ip * 10 ^ k * 10 ^ j = ip * 1000000 := by
          rw [mul_assoc, ← pow_add, hkj]
          norm_num
        have h2 : (ip * 10 ^ k + ds) * 10 ^ j = m := by
          rw [add_mul, h1, ← hfpval]
          omega
        calc m * 10 ^ k = (ip * 10 ^ k + ds) * 10 ^ j * 10 ^ k := by rw [h2]
        _ = (ip * 10 ^ k + ds) * 10 ^ (j + k) := by rw [mul_assoc, ← pow_add]
        _ = (ip * 10 ^ k + ds) * 1000000 := by
            rw [show j + k = 6 from by omega]
            norm_num
      rw [div_eq_div_iff (by positivity) (by norm_num : (1000000 : ℚ) ≠ 0)]
      have hcast : (n : ℚ) = sgn * (m : ℚ) := by
        rw [← hsgn]
        push_cast
        ring
      rw [hcast]
      have hq : ((m : ℚ)) * 10 ^ k = ((ip : ℚ) * 10 ^ k + (ds : ℚ)) * 1000000 := by
        exact_mod_cast congrArg (fun t : ℕ => (t : ℚ)) hnatEq
      push_cast
      rw [← hk, ← hds]
      linear_combination (-1 : ℚ) * (sgn : ℚ) * hq
  unfold pyFloat
  rw [show (String.mk (format_float q)).data = format_float q from rfl, hstrip]
  by_cases hneg : n < 0
  · have hsgnchars : format_float q = '-' :: (charsOfNat ip ++ TAIL) := by
      rw [hchars, if_pos hneg]
      rfl
    rw [hsgnchars]
    have hps : pySign ('-' :: (charsOfNat ip ++ TAIL))
        = (-1, charsOfNat ip ++ TAIL) := rfl
    rw [hps]
    exact hbody (-1) (by
      have h2 := Int.ofNat_natAbs_of_nonpos (le_of_lt hneg)
      omega)
  · have hsgnchars : format_float q = charsOfNat ip ++ TAIL := by
      rw [hchars, if_neg hneg]
      rfl
    rw [hsgnchars]
    have hps : pySign (charsOfNat ip ++ TAIL) = (1, charsOfNat ip ++ TAIL) := by
      apply pySign_no_sign
      intro c hc
      obtain ⟨c0, t0, hct⟩ := List.exists_cons_of_ne_nil (charsOfNat_ne_nil ip)
      rw [hct] at hc
      simp at hc
      rw [← hc]
      exact isDigitC_ne_signs c0 (charsOfNat_digits ip c0 (by rw [hct]; simp))
    rw [hps]
    exact hbody 1 (by
      have h2 := Int.natAbs_of_nonneg (not_lt.mp hneg)
      omega)

end Tb

namespace Tb

/-! ### Round-trip machinery: rounded documents and wellformedness -/

/-- A vector with all components rounded to 6 decimals (what a written
point reads back as). -/
def r6v (v : Vec3) : Vec3 := ⟨r6 v.x, r6 v.y, r6 v.z⟩

/-- A face as recovered by parsing its written form: numeric fields
rounded, texture unchanged. -/
def roundFace (f : Face) : Face :=
  ⟨r6v f.point1, r6v f.point2, r6v f.point3, f.texture,
   r6 f.offset_u, r6 f.offset_v, r6 f.rotation, r6 f.scale_u, r6 f.scale_v⟩

/-- A brush as recovered by parsing its written form. -/
def roundBrush (b : Brush) : Brush := ⟨b.faces.map roundFace⟩

/-- An entity as recovered by parsing its written form. -/
def roundEntity (e : Entity) : Entity :=
  { e with brushes := e.brushes.map roundBrush }

/-- A document as recovered by parsing its written form. -/
def roundDoc (D : MapFile) : MapFile := ⟨D.entities.map roundEntity⟩

/-- A string with no double-quote characters (what parse_quoted_string can
produce). -/
def noQuote (s : String) : Prop := ∀ c ∈ s.data, c ≠ '"'

/-- The characters at which _parse_token stops scanning. -/
def isStop (ch : Char) : Prop :=
  pyIsSpace ch = true ∨ ch = '{' ∨ ch = '}' ∨ ch = '(' ∨ ch = ')'

/-- A texture string that re-tokenizes to itself: nonempty, does not start
with a double quote, and contains no whitespace or brace/parenthesis
delimiters. -/
def cleanToken (s : String) : Prop :=
  s.data ≠ [] ∧ s.data.head? ≠ some '"' ∧ ∀ c ∈ s.data, ¬ isStop c

/-- Wellformedness of an entity as produced by the parser: no duplicate
property keys, no double quotes inside keys or values, and the classname
field agreeing with the classname property. -/
def EntityWF (e : Entity) : Prop :=
  (e.properties.map Prod.fst).Nodup ∧
  (∀ kv ∈ e.properties, noQuote kv.1 ∧ noQuote kv.2) ∧
  e.classname = ((e.properties.lookup ("classname")).getD "")

/-- Wellformedness of a document as produced by the parser. -/
def DocWF (D : MapFile) : Prop := ∀ e ∈ D.entities, EntityWF e

/-- All face textures of a document are clean tokens (the extra hypothesis
of the amended round-trip claim; parsing can produce non-clean textures
from quoted texture tokens, as the counterexample shows). -/
def DocTexWF (D : MapFile) : Prop :=
  ∀ e ∈ D.entities, ∀ b ∈ e.brushes, ∀ f ∈ b.faces, cleanToken f.texture

/-! ### Round-trip machinery: writer text shapes -/

/-- The text of a brush after its leading indent (which the preceding
whitespace skip has already consumed). -/
def brushCore (b : Brush) : List Char :=
  '{' :: '\n' :: (b.faces.flatMap (fun f => sp4 ++ sp4 ++ write_face f ++ ['\n'])
    ++ sp4 ++ ['}'])

theorem write_brush_eq (b : Brush) : write_brush b sp4 = sp4 ++ brushCore b := by
  unfold write_brush brushCore
  simp [List.append_assoc]

/-- The text seen by the face loop from its entry point (just after the
skip following the brush's open brace): each face line, then the padding
of the next line, ending at the closing brace. -/
def faceLoopText : List Face → List Char → List Char
  | [], rest => '}' :: rest
  | f :: fs, rest =>
    write_face f ++ '\n' :: ((if fs = [] then sp4 else sp4 ++ sp4) ++ faceLoopText fs rest)

theorem brushCore_eq (b : Brush) (rest : List Char) :
    brushCore b ++ rest
      = '{' :: '\n' :: ((if b.faces = [] then sp4 else sp4 ++ sp4)
          ++ faceLoopText b.faces rest) := by
  unfold brushCore
  simp only [List.cons_append, List.append_assoc]
  congr 2
  induction b.faces with
  | nil => simp [faceLoopText]
  | cons f fs ih =>
    cases fs with
    | nil => simp [faceLoopText]
    | cons g gs =>
      rw [List.flatMap_cons]
      rw [faceLoopText]
      rw [if_neg (by simp)]
      simp only [List.append_assoc, List.cons_append, List.nil_append]
      rw [← ih]
      simp [List.append_assoc]

/-- The text seen by the property loop from its entry point. -/
def propsLoopText : List (String × String) → List Char → List Char
  | [], rest => rest
  | kv :: ps, rest =>
    '"' :: kv.1.data ++ '"' :: ' ' :: '"' :: kv.2.data
      ++ '"' :: '\n' :: (if ps = [] then rest else sp4 ++ propsLoopText ps rest)

/-- The text seen by the brush loop from its entry point. -/
def brushesLoopText : List Brush → List Char → List Char
  | [], rest => rest
  | b :: bs, rest =>
    brushCore b ++ '\n' :: (if bs = [] then rest else sp4 ++ brushesLoopText bs rest)

theorem escapeQuotes_id_chars : ∀ (l : List Char), (∀ c ∈ l, c ≠ '"') →
    l.flatMap (fun c => if c = '"' then ['\\', '"'] else [c]) = l
  | [], _ => rfl
  | c :: t, h => by
    rw [List.flatMap_cons, if_neg (h c (by simp)),
      escapeQuotes_id_chars t (fun d hd => h d (by simp [hd]))]
    rfl

theorem escapeQuotes_id (v : String) (h : noQuote v) : escapeQuotes v.data = v.data :=
  escapeQuotes_id_chars v.data h

theorem propsText_eq (ps : List (String × String)) (rest : List Char)
    (h : ∀ kv ∈ ps, noQuote kv.2) :
    ps.flatMap prop_line ++ rest
      = if ps = [] then rest else sp4 ++ propsLoopText ps rest := by
  induction ps with
  | nil => simp
  | cons kv ps ih =>
    have hesc : escapeQuotes kv.2.data = kv.2.data :=
      escapeQuotes_id kv.2 (h kv (by simp))
    have hline : prop_line kv
        = sp4 ++ '"' :: kv.1.data ++ '"' :: ' ' :: '"' :: (kv.2.data ++ ['"', '\n']) := by
      unfold prop_line
      rw [hesc]
    rw [List.flatMap_cons, if_neg (by simp), hline, List.append_assoc,
      ih (fun x hx => h x (by simp [hx])), propsLoopText]
    cases ps with
    | nil => simp [List.append_assoc]
    | cons p2 ps2 => simp [List.append_assoc]

theorem brushesText_eq (bs : List Brush) (rest : List Char) :
    bs.flatMap (fun b => write_brush b sp4 ++ ['\n']) ++ rest
      = if bs = [] then rest else sp4 ++ brushesLoopText bs rest := by
  induction bs with
  | nil => simp
  | cons b bs ih =>
    rw [List.flatMap_cons, if_neg (by simp), write_brush_eq, List.append_assoc,
      List.append_assoc, ih, brushesLoopText]
    cases bs with
    | nil => simp [List.append_assoc]
    | cons b2 bs2 => simp [List.append_assoc]

theorem write_entity_eq (e : Entity) (rest : List Char)
    (h : ∀ kv ∈ e.properties, noQuote kv.2) :
    write_entity e ++ rest
      = '{' :: '\n' ::
          ((if e.properties = [] then
              (if e.brushes = [] then '}' :: rest
               else sp4 ++ brushesLoopText e.brushes ('}' :: rest))
            else sp4 ++ propsLoopText e.properties
              (if e.brushes = [] then '}' :: rest
               else sp4 ++ brushesLoopText e.brushes ('}' :: rest)))) := by
  unfold write_entity
  simp only [List.cons_append, List.append_assoc, List.nil_append]
  rw [brushesText_eq e.brushes ('}' :: rest), propsText_eq e.properties _ h]

end Tb

namespace Tb

/-! ### Round-trip machinery: whitespace skipping -/

theorem skip_ws_core_no (cs : List Char) (l c : ℕ)
    (h : ∀ ch, cs.head? = some ch → ¬(ch = ' ' ∨ ch = '\t' ∨ ch = '\r')) :
    skip_ws_core cs l c = ⟨cs, l, c⟩ := by
  cases cs with
  | nil => rfl
  | cons ch t => rw [skip_ws_core, if_neg (h ch rfl)]

theorem skip_ws_core_space (cs : List Char) (l c : ℕ) :
    skip_ws_core (' ' :: cs) l c = skip_ws_core cs l (c + 1) := by
  rw [skip_ws_core, if_pos (Or.inl rfl)]

theorem skip_wsc_stop (cs : List Char) (l c : ℕ)
    (h : ∀ ch, cs.head? = some ch → pyIsSpace ch = false ∧ ch ≠ '/') :
    skip_wsc_core false cs l c = ⟨cs, l, c⟩ := by
  cases cs with
  | nil => rfl
  | cons ch t =>
    rw [skip_wsc_core, if_neg (fun hand => (h ch rfl).2 hand.1),
      if_neg (by simp [(h ch rfl).1])]

theorem skip_wsc_space (cs : List Char) (l c : ℕ) :
    skip_wsc_core false (' ' :: cs) l c = skip_wsc_core false cs l (c + 1) := by
  rw [skip_wsc_core, if_neg (by simp), if_pos (by decide), if_neg (by decide)]

theorem skip_wsc_nl (cs : List Char) (l c : ℕ) :
    skip_wsc_core false ('\n' :: cs) l c = skip_wsc_core false cs (l + 1) 1 := by
  rw [skip_wsc_core, if_neg (by simp), if_pos (by decide), if_pos (by decide)]

theorem skip_wsc_run : ∀ (ws cs : List Char) (l c : ℕ),
    (∀ ch ∈ ws, ch = ' ' ∨ ch = '\n') →
    (∀ ch, cs.head? = some ch → pyIsSpace ch = false ∧ ch ≠ '/') →
    ∃ l2 c2, skip_wsc_core false (ws ++ cs) l c = ⟨cs, l2, c2⟩
  | [], cs, l, c, _, hcs => ⟨l, c, skip_wsc_stop cs l c hcs⟩
  | ch :: ws, cs, l, c, hws, hcs => by
    rcases hws ch (by simp) with h | h
    · subst h
      rw [List.cons_append, skip_wsc_space]
      exact skip_wsc_run ws cs l (c + 1) (fun d hd => hws d (by simp [hd])) hcs
    · subst h
      rw [List.cons_append, skip_wsc_nl]
      exact skip_wsc_run ws cs (l + 1) 1 (fun d hd => hws d (by simp [hd])) hcs

/-! ### Round-trip machinery: token scanning -/

theorem scanToken_clean : ∀ (tok rest : List Char) (l c : ℕ),
    (∀ ch ∈ tok, ¬ isStop ch) → (∀ ch, rest.head? = some ch → isStop ch) →
    scanToken (tok ++ rest) l c = (tok, ⟨rest, l, c + tok.length⟩)
  | [], rest, l, c, _, hr => by
    cases rest with
    | nil => simp [scanToken]
    | cons ch t =>
      rw [List.nil_append, scanToken, if_pos (show pyIsSpace ch = true ∨ ch = '{' ∨
        ch = '}' ∨ ch = '(' ∨ ch = ')' from hr ch rfl)]
      simp
  | ch :: tok, rest, l, c, ht, hr => by
    rw [List.cons_append, scanToken, if_neg (show ¬(pyIsSpace ch = true ∨ ch = '{' ∨
        ch = '}' ∨ ch = '(' ∨ ch = ')') from ht ch (by simp)),
      scanToken_clean tok rest l (c + 1) (fun d hd => ht d (by simp [hd])) hr]
    have hc : c + 1 + tok.length = c + (ch :: tok).length := by
      simp [List.length_cons]
      omega
    rw [hc]

theorem parse_token_clean (tok rest : List Char) (l c : ℕ)
    (hne : tok ≠ []) (hq : tok.head? ≠ some '"') (htok : ∀ ch ∈ tok, ¬ isStop ch)
    (hrest : ∀ ch, rest.head? = some ch → isStop ch) :
    parse_token ⟨tok ++ rest, l, c⟩
      = .ok (String.mk tok, ⟨rest, l, c + tok.length⟩) := by
  obtain ⟨c0, t0, rfl⟩ := List.exists_cons_of_ne_nil hne
  unfold parse_token
  have hsk : skip_whitespace ⟨(c0 :: t0) ++ rest, l, c⟩ = ⟨(c0 :: t0) ++ rest, l, c⟩ := by
    unfold skip_whitespace
    apply skip_ws_core_no
    intro ch hch
    simp at hch
    intro hdisj
    apply htok c0 (by simp)
    rw [hch]
    unfold isStop
    rcases hdisj with h | h | h <;> rw [h] <;> simp <;> decide
  rw [hsk]
  have hpeek : peekc ⟨(c0 :: t0) ++ rest, l, c⟩ = c0 := rfl
  rw [hpeek]
  rw [if_neg (show ¬(c0 = '"') from by
    intro hc
    apply hq
    rw [hc]
    rfl)]
  have hscan : scanToken (⟨(c0 :: t0) ++ rest, l, c⟩ : PSt).rest
      (⟨(c0 :: t0) ++ rest, l, c⟩ : PSt).line (⟨(c0 :: t0) ++ rest, l, c⟩ : PSt).column
      = (c0 :: t0, ⟨rest, l, c + (c0 :: t0).length⟩) :=
    scanToken_clean (c0 :: t0) rest l c htok hrest
  rw [hscan]
  rw [if_neg (by simp)]

/-! ### Round-trip machinery: quoted strings -/

theorem scanQuoted_spec : ∀ (content rest : List Char) (l c : ℕ),
    (∀ ch ∈ content, ch ≠ '"') →
    ∃ l2 c2, scanQuoted (content ++ '"' :: rest) l c = (content, ⟨'"' :: rest, l2, c2⟩)
  | [], rest, l, c, _ => ⟨l, c, by rw [List.nil_append, scanQuoted, if_pos rfl]⟩
  | ch :: content, rest, l, c, h => by
    by_cases hn : ch = '\n'
    · obtain ⟨l2, c2, hrec⟩ :=
        scanQuoted_spec content rest (l + 1) 1 (fun d hd => h d (by simp [hd]))
      refine ⟨l2, c2, ?_⟩
      rw [List.cons_append, scanQuoted, if_neg (h ch (by simp)), if_pos hn, hrec]
    · obtain ⟨l2, c2, hrec⟩ :=
        scanQuoted_spec content rest l (c + 1) (fun d hd => h d (by simp [hd]))
      refine ⟨l2, c2, ?_⟩
      rw [List.cons_append, scanQuoted, if_neg (h ch (by simp)), if_neg hn, hrec]

theorem parse_quoted_spec (content rest : List Char) (l c : ℕ)
    (h : ∀ ch ∈ content, ch ≠ '"') :
    ∃ l2 c2, parse_quoted_string ⟨'"' :: (content ++ '"' :: rest), l, c⟩
      = .ok (String.mk content, ⟨rest, l2, c2⟩) := by
  obtain ⟨l2, c2, hscan⟩ := scanQuoted_spec content rest l (c + 1) h
  refine ⟨l2, c2 + 1, ?_⟩
  unfold parse_quoted_string
  rw [show expectc '"' ⟨'"' :: (content ++ '"' :: rest), l, c⟩
      = Except.ok ((), ⟨content ++ '"' :: rest, l, c + 1⟩) from rfl]
  rw [bindE_ok]
  simp only [hscan]
  rw [show expectc '"' ⟨'"' :: rest, l2, c2⟩
      = Except.ok ((), ⟨rest, l2, c2 + 1⟩) from rfl]
  rw [bindE_ok]
  rfl

end Tb

namespace Tb

/-! ### Round-trip machinery: number tokens -/

instance isStop_decidable (ch : Char) : Decidable (isStop ch) := by
  unfold isStop
  exact inferInstance

theorem mem_stripTrailingZeros (X : List Char) (c : Char)
    (h : c ∈ stripTrailingZeros X) : c ∈ X := by
  obtain ⟨j, hX⟩ := stripTrailingZeros_spec X
  rw [hX]
  exact List.mem_append_left _ h

theorem padSixFrac_digits (fp : ℕ) : ∀ c ∈ padSixFrac fp, isDigitC c = true := by
  intro c hc
  unfold padSixFrac at hc
  rcases List.mem_append.1 hc with h | h
  · rw [List.eq_of_mem_replicate h]
    decide
  · exact charsOfNat_digits fp c h

theorem format_float_chars (q : ℚ) :
    ∀ ch ∈ format_float q, ch = '-' ∨ ch = '.' ∨ isDigitC ch = true := by
  intro ch hch
  simp only [format_float, List.mem_append] at hch
  rcases hch with (h | h) | h
  · split at h
    · left
      simpa using h
    · simp at h
  · right; right
    exact charsOfNat_digits _ ch h
  · split at h
    · simp at h
    · rcases List.mem_cons.1 h with h | h
      · right; left
        exact h
      · right; right
        exact padSixFrac_digits _ ch (mem_stripTrailingZeros _ ch h)

theorem format_float_not_stop (q : ℚ) : ∀ ch ∈ format_float q, ¬ isStop ch := by
  intro ch hch hstop
  rcases format_float_chars q ch hch with h | h | h
  · subst h
    revert hstop
    decide
  · subst h
    revert hstop
    decide
  · rcases hstop with hs | hs | hs | hs | hs
    · rw [isDigitC_not_space ch h] at hs
      exact Bool.false_ne_true hs
    · subst hs
      exact absurd h (by decide)
    · subst hs
      exact absurd h (by decide)
    · subst hs
      exact absurd h (by decide)
    · subst hs
      exact absurd h (by decide)

theorem format_float_head_ne_quote (q : ℚ) :
    (format_float q).head? ≠ some '"' := by
  intro h
  have hm : '"' ∈ format_float q := List.mem_of_mem_head? h
  rcases format_float_chars q _ hm with h | h | h
  · exact absurd h (by decide)
  · exact absurd h (by decide)
  · exact absurd h (by decide)

theorem format_float_ne_nil (q : ℚ) : format_float q ≠ [] := by
  intro h
  have h2 := congrArg List.length h
  simp only [format_float, List.length_append, List.length_nil] at h2
  have h3 : (charsOfNat ((r6i q).natAbs / 1000000)).length = 0 := by omega
  exact charsOfNat_ne_nil _ (List.length_eq_zero.mp h3)

theorem parse_number_ff (msg : String) (q : ℚ) (rest : List Char) (l c : ℕ)
    (hrest : ∀ ch, rest.head? = some ch → isStop ch) :
    parse_number msg ⟨format_float q ++ rest, l, c⟩
      = .ok (r6 q, ⟨rest, l, c + (format_float q).length⟩) := by
  unfold parse_number
  rw [parse_token_clean (format_float q) rest l c (format_float_ne_nil q)
    (format_float_head_ne_quote q) (format_float_not_stop q) hrest]
  simp only [bindE_ok]
  rw [pyFloat_format_float]
  rfl

end Tb

namespace Tb

/-! ### Round-trip machinery: points and faces -/

theorem expectc_cons (ch : Char) (t : List Char) (l c : ℕ) (h : ¬ ch = '\n') :
    expectc ch ⟨ch :: t, l, c⟩ = .ok ((), ⟨t, l, c + 1⟩) := by
  unfold expectc peekc advance1
  simp [h]

theorem skip_ws_one_space (X : List Char) (l c : ℕ)
    (h : ∀ ch, X.head? = some ch → ¬(ch = ' ' ∨ ch = '\t' ∨ ch = '\r')) :
    skip_whitespace ⟨' ' :: X, l, c⟩ = ⟨X, l, c + 1⟩ := by
  show skip_ws_core (' ' :: X) l c = _
  rw [skip_ws_core_space, skip_ws_core_no X l (c + 1) h]

theorem clean_head_not_ws (tok cs : List Char) (hne : tok ≠ [])
    (htok : ∀ ch ∈ tok, ¬ isStop ch) :
    ∀ ch, (tok ++ cs).head? = some ch → ¬(ch = ' ' ∨ ch = '\t' ∨ ch = '\r') := by
  obtain ⟨c0, t0, rfl⟩ := List.exists_cons_of_ne_nil hne
  intro ch hch hws
  have hc0 : c0 = ch := by simpa using hch
  apply htok c0 (by simp)
  subst hc0
  rcases hws with h | h | h <;> subst h <;> decide

theorem head_cons_stop (ch0 : Char) (h : isStop ch0) (X : List Char) :
    ∀ ch, ((ch0 :: X).head? = some ch) → isStop ch := by
  intro ch hch
  have : ch0 = ch := by simpa using hch
  subst this
  exact h

theorem parse_point_write (p : Vec3) (rest : List Char) (l c : ℕ) :
    ∃ c2, parse_point ⟨write_point p ++ rest, l, c⟩ = .ok (r6v p, ⟨rest, l, c2⟩) := by
  refine ⟨c + 1 + 1 + (format_float p.x).length + 1 + (format_float p.y).length + 1
      + (format_float p.z).length + 1 + 1, ?_⟩
  have hshape : write_point p ++ rest
      = '(' :: ' ' :: (format_float p.x ++ (' ' :: (format_float p.y
          ++ (' ' :: (format_float p.z ++ (' ' :: ')' :: rest)))))) := by
    simp [write_point]
  rw [hshape]
  have e1 : expectc '(' ⟨'(' :: ' ' :: (format_float p.x ++ (' ' :: (format_float p.y
      ++ (' ' :: (format_float p.z ++ (' ' :: ')' :: rest)))))), l, c⟩
      = .ok ((), ⟨' ' :: (format_float p.x ++ (' ' :: (format_float p.y
          ++ (' ' :: (format_float p.z ++ (' ' :: ')' :: rest)))))), l, c + 1⟩) :=
    expectc_cons _ _ _ _ (by decide)
  have s1 : skip_whitespace ⟨' ' :: (format_float p.x ++ (' ' :: (format_float p.y
      ++ (' ' :: (format_float p.z ++ (' ' :: ')' :: rest)))))), l, c + 1⟩
      = ⟨format_float p.x ++ (' ' :: (format_float p.y
          ++ (' ' :: (format_float p.z ++ (' ' :: ')' :: rest))))), l, c + 1 + 1⟩ :=
    skip_ws_one_space _ _ _ (clean_head_not_ws _ _ (format_float_ne_nil p.x)
      (format_float_not_stop p.x))
  have n1 : parse_number ("invalid coordinate in point")
      ⟨format_float p.x ++ (' ' :: (format_float p.y
        ++ (' ' :: (format_float p.z ++ (' ' :: ')' :: rest))))), l, c + 1 + 1⟩
      = .ok (r6 p.x, ⟨' ' :: (format_float p.y
          ++ (' ' :: (format_float p.z ++ (' ' :: ')' :: rest)))), l,
          c + 1 + 1 + (format_float p.x).length⟩) :=
    parse_number_ff _ _ _ _ _ (head_cons_stop ' ' (by decide) _)
  have s2 : skip_whitespace ⟨' ' :: (format_float p.y
      ++ (' ' :: (format_float p.z ++ (' ' :: ')' :: rest)))), l,
      c + 1 + 1 + (format_float p.x).length⟩
      = ⟨format_float p.y ++ (' ' :: (format_float p.z ++ (' ' :: ')' :: rest))), l,
          c + 1 + 1 + (format_float p.x).length + 1⟩ :=
    skip_ws_one_space _ _ _ (clean_head_not_ws _ _ (format_float_ne_nil p.y)
      (format_float_not_stop p.y))
  have n2 : parse_number ("invalid coordinate in point")
      ⟨format_float p.y ++ (' ' :: (format_float p.z ++ (' ' :: ')' :: rest))), l,
        c + 1 + 1 + (format_float p.x).length + 1⟩
      = .ok (r6 p.y, ⟨' ' :: (format_float p.z ++ (' ' :: ')' :: rest)), l,
          c + 1 + 1 + (format_float p.x).length + 1 + (format_float p.y).length⟩) :=
    parse_number_ff _ _ _ _ _ (head_cons_stop ' ' (by decide) _)
  have s3 : skip_whitespace ⟨' ' :: (format_float p.z ++ (' ' :: ')' :: rest)), l,
      c + 1 + 1 + (format_float p.x).length + 1 + (format_float p.y).length⟩
      = ⟨format_float p.z ++ (' ' :: ')' :: rest), l,
          c + 1 + 1 + (format_float p.x).length + 1 + (format_float p.y).length + 1⟩ :=
    skip_ws_one_space _ _ _ (clean_head_not_ws _ _ (format_float_ne_nil p.z)
      (format_float_not_stop p.z))
  have n3 : parse_number ("invalid coordinate in point")
      ⟨format_float p.z ++ (' ' :: ')' :: rest), l,
        c + 1 + 1 + (format_float p.x).length + 1 + (format_float p.y).length + 1⟩
      = .ok (r6 p.z, ⟨' ' :: ')' :: rest, l,
          c + 1 + 1 + (format_float p.x).length + 1 + (format_float p.y).length + 1
            + (format_float p.z).length⟩) :=
    parse_number_ff _ _ _ _ _ (head_cons_stop ' ' (by decide) _)
  have s4 : skip_whitespace ⟨' ' :: ')' :: rest, l,
      c + 1 + 1 + (format_float p.x).length + 1 + (format_float p.y).length + 1
        + (format_float p.z).length⟩
      = ⟨')' :: rest, l,
          c + 1 + 1 + (format_float p.x).length + 1 + (format_float p.y).length + 1
            + (format_float p.z).length + 1⟩ :=
    skip_ws_one_space _ _ _ (by
      intro ch hch
      have : ')' = ch := by simpa using hch
      subst this
      decide)
  have e2 : expectc ')' ⟨')' :: rest, l,
      c + 1 + 1 + (format_float p.x).length + 1 + (format_float p.y).length + 1
        + (format_float p.z).length + 1⟩
      = .ok ((), ⟨rest, l,
          c + 1 + 1 + (format_float p.x).length + 1 + (format_float p.y).length + 1
            + (format_float p.z).length + 1 + 1⟩) :=
    expectc_cons _ _ _ _ (by decide)
  simp only [parse_point, e1, bindE_ok, s1, n1, s2, n2, s3, n3, s4, e2]
  rfl

end Tb

namespace Tb

theorem string_mk_data (s : String) : String.mk s.data = s := by
  obtain ⟨d⟩ := s
  rfl

theorem sp_number (msg : String) (q : ℚ) (rest : List Char) (l c : ℕ)
    (hrest : ∀ ch, rest.head? = some ch → isStop ch) :
    parse_number msg (skip_whitespace ⟨' ' :: (format_float q ++ rest), l, c⟩)
      = .ok (r6 q, ⟨rest, l, c + 1 + (format_float q).length⟩) := by
  rw [skip_ws_one_space _ _ _ (clean_head_not_ws _ _ (format_float_ne_nil q)
    (format_float_not_stop q))]
  exact parse_number_ff msg q rest l (c + 1) hrest

theorem sp_point (p : Vec3) (rest : List Char) (l c : ℕ) :
    ∃ c2, parse_point (skip_whitespace ⟨' ' :: (write_point p ++ rest), l, c⟩)
      = .ok (r6v p, ⟨rest, l, c2⟩) := by
  have hhd : ∀ ch, (write_point p ++ rest).head? = some ch →
      ¬(ch = ' ' ∨ ch = '\t' ∨ ch = '\r') := by
    intro ch hch
    have h0 : '(' = ch := by simpa [write_point] using hch
    subst h0
    decide
  rw [skip_ws_one_space _ _ _ hhd]
  exact parse_point_write p rest l (c + 1)

theorem sp_token (s : String) (rest : List Char) (l c : ℕ) (hs : cleanToken s)
    (hrest : ∀ ch, rest.head? = some ch → isStop ch) :
    parse_token (skip_whitespace ⟨' ' :: (s.data ++ rest), l, c⟩)
      = .ok (s, ⟨rest, l, c + 1 + s.data.length⟩) := by
  obtain ⟨hne, hq, hclean⟩ := hs
  rw [skip_ws_one_space _ _ _ (clean_head_not_ws _ _ hne hclean)]
  rw [parse_token_clean s.data rest l (c + 1) hne hq hclean hrest]

theorem parse_face_write (f : Face) (rest : List Char) (l c : ℕ)
    (htex : cleanToken f.texture)
    (hrest : ∀ ch, rest.head? = some ch → isStop ch) :
    ∃ c2, parse_face ⟨write_face f ++ rest, l, c⟩
      = .ok (roundFace f, ⟨rest, l, c2⟩) := by
  have hshape : write_face f ++ rest
      = write_point f.point1 ++ (' ' :: (write_point f.point2 ++ ' ' :: (write_point f.point3 ++ ' ' :: (f.texture.data ++ ' ' :: (format_float f.offset_u ++ ' ' :: (format_float f.offset_v ++ ' ' :: (format_float f.rotation ++ ' ' :: (format_float f.scale_u ++ ' ' :: (format_float f.scale_v ++ rest))))))))) := by
    simp [write_face, write_point]
  obtain ⟨c1, h1⟩ := parse_point_write f.point1 (' ' :: (write_point f.point2 ++ ' ' :: (write_point f.point3 ++ ' ' :: (f.texture.data ++ ' ' :: (format_float f.offset_u ++ ' ' :: (format_float f.offset_v ++ ' ' :: (format_float f.rotation ++ ' ' :: (format_float f.scale_u ++ ' ' :: (format_float f.scale_v ++ rest))))))))) l c
  obtain ⟨c2, h2⟩ := sp_point f.point2 (' ' :: (write_point f.point3 ++ ' ' :: (f.texture.data ++ ' ' :: (format_float f.offset_u ++ ' ' :: (format_float f.offset_v ++ ' ' :: (format_float f.rotation ++ ' ' :: (format_float f.scale_u ++ ' ' :: (format_float f.scale_v ++ rest)))))))) l c1
  obtain ⟨c3, h3⟩ := sp_point f.point3 (' ' :: (f.texture.data ++ ' ' :: (format_float f.offset_u ++ ' ' :: (format_float f.offset_v ++ ' ' :: (format_float f.rotation ++ ' ' :: (format_float f.scale_u ++ ' ' :: (format_float f.scale_v ++ rest))))))) l c2
  have h4 := sp_token f.texture (' ' :: (format_float f.offset_u ++ ' ' :: (format_float f.offset_v ++ ' ' :: (format_float f.rotation ++ ' ' :: (format_float f.scale_u ++ ' ' :: (format_float f.scale_v ++ rest)))))) l c3 htex
    (head_cons_stop ' ' (by decide) _)
  have h5 := sp_number ("invalid numeric value in face") f.offset_u
    (' ' :: (format_float f.offset_v ++ ' ' :: (format_float f.rotation ++ ' ' :: (format_float f.scale_u ++ ' ' :: (format_float f.scale_v ++ rest))))) l
    (c3 + 1 + f.texture.data.length) (head_cons_stop ' ' (by decide) _)
  have h6 := sp_number ("invalid numeric value in face") f.offset_v
    (' ' :: (format_float f.rotation ++ ' ' :: (format_float f.scale_u ++ ' ' :: (format_float f.scale_v ++ rest)))) l
    (c3 + 1 + f.texture.data.length + 1 + (format_float f.offset_u).length) (head_cons_stop ' ' (by decide) _)
  have h7 := sp_number ("invalid numeric value in face") f.rotation
    (' ' :: (format_float f.scale_u ++ ' ' :: (format_float f.scale_v ++ rest))) l
    (c3 + 1 + f.texture.data.length + 1 + (format_float f.offset_u).length + 1 + (format_float f.offset_v).length) (head_cons_stop ' ' (by decide) _)
  have h8 := sp_number ("invalid numeric value in face") f.scale_u
    (' ' :: (format_float f.scale_v ++ rest)) l
    (c3 + 1 + f.texture.data.length + 1 + (format_float f.offset_u).length + 1 + (format_float f.offset_v).length + 1 + (format_float f.rotation).length) (head_cons_stop ' ' (by decide) _)
  have h9 := sp_number ("invalid numeric value in face") f.scale_v
    (rest) l
    (c3 + 1 + f.texture.data.length + 1 + (format_float f.offset_u).length + 1 + (format_float f.offset_v).length + 1 + (format_float f.rotation).length + 1 + (format_float f.scale_u).length) hrest
  refine ⟨c3 + 1 + f.texture.data.length + 1 + (format_float f.offset_u).length + 1 + (format_float f.offset_v).length + 1 + (format_float f.rotation).length + 1 + (format_float f.scale_u).length + 1 + (format_float f.scale_v).length, ?_⟩
  rw [hshape]
  simp only [parse_face, h1, bindE_ok, h2, h3, h4, h5, h6, h7, h8, h9]
  rfl

end Tb

namespace Tb

/-! ### Round-trip machinery: the face loop and brushes -/

theorem skip_wsc_state (ws cs : List Char) (l c : ℕ)
    (hws : ∀ ch ∈ ws, ch = ' ' ∨ ch = '\n')
    (hcs : ∀ ch, cs.head? = some ch → pyIsSpace ch = false ∧ ch ≠ '/') :
    ∃ l2 c2, skip_whitespace_and_comments ⟨ws ++ cs, l, c⟩ = ⟨cs, l2, c2⟩ := by
  unfold skip_whitespace_and_comments
  exact skip_wsc_run ws cs l c hws hcs

theorem faceLoopText_head (fs : List Face) (rest : List Char) :
    ∀ ch, (faceLoopText fs rest).head? = some ch → ch = '(' ∨ ch = '}' := by
  intro ch hch
  cases fs with
  | nil =>
    right
    have h0 : '}' = ch := by simpa [faceLoopText] using hch
    exact h0.symm
  | cons f fs =>
    left
    have h0 : '(' = ch := by
      simpa [faceLoopText, write_face, write_point] using hch
    exact h0.symm

theorem face_loop_write : ∀ (fs : List Face) (fuel : ℕ) (acc : List Face)
    (rest : List Char) (l c : ℕ),
    fs.length < fuel →
    (∀ f ∈ fs, cleanToken f.texture) →
    ∃ l2 c2, face_loop fuel acc ⟨faceLoopText fs rest, l, c⟩
      = .ok (acc ++ fs.map roundFace, ⟨'}' :: rest, l2, c2⟩)
  | [], fuel, acc, rest, l, c, hfuel, _ => by
    cases fuel with
    | zero => omega
    | succ F =>
      refine ⟨l, c, ?_⟩
      rw [faceLoopText, face_loop, if_neg (by
        intro hand
        have := hand.2
        simp [peekc] at this)]
      simp
  | f :: fs, fuel, acc, rest, l, c, hfuel, htex => by
    cases fuel with
    | zero => omega
    | succ F =>
      rw [faceLoopText]
      obtain ⟨c2, hpf⟩ := parse_face_write f
        ('\n' :: ((if fs = [] then sp4 else sp4 ++ sp4) ++ faceLoopText fs rest)) l c
        (htex f (by simp)) (head_cons_stop '\n' (by decide) _)
      obtain ⟨l3, c3, hskip⟩ := skip_wsc_state
        ('\n' :: (if fs = [] then sp4 else sp4 ++ sp4)) (faceLoopText fs rest) l c2
        (by
          intro ch hch
          rcases List.mem_cons.1 hch with h | h
          · right; exact h
          · left
            revert h
            split <;> intro h <;> simpa [sp4] using h)
        (by
          intro ch hch
          rcases faceLoopText_head fs rest ch hch with h | h <;> subst h <;> exact ⟨by decide, by decide⟩)
      have hskip' : skip_whitespace_and_comments
          ⟨'\n' :: ((if fs = [] then sp4 else sp4 ++ sp4) ++ faceLoopText fs rest), l, c2⟩
          = ⟨faceLoopText fs rest, l3, c3⟩ := hskip
      obtain ⟨l4, c4, hrec⟩ := face_loop_write fs F (acc ++ [roundFace f]) rest l3 c3
        (by simp at hfuel; omega) (fun g hg => htex g (by simp [hg]))
      refine ⟨l4, c4, ?_⟩
      rw [face_loop, if_pos (by
        constructor
        · simp [write_face, write_point]
        · simp [peekc, write_face, write_point])]
      simp only [hpf, bindE_ok, hskip', hrec]
      simp

end Tb

namespace Tb

theorem sp4_pad_chars (P : Prop) [Decidable P] :
    ∀ ch ∈ ('\n' :: (if P then sp4 else sp4 ++ sp4)), ch = ' ' ∨ ch = '\n' := by
  intro ch hch
  rcases List.mem_cons.1 hch with h | h
  · right; exact h
  · left
    revert h
    split <;> intro h <;> simpa [sp4] using h

theorem faceLoopText_head_cond (fs : List Face) (rest : List Char) :
    ∀ ch, (faceLoopText fs rest).head? = some ch → pyIsSpace ch = false ∧ ch ≠ '/' := by
  intro ch hch
  rcases faceLoopText_head fs rest ch hch with h | h <;> subst h <;>
    exact ⟨by decide, by decide⟩

theorem parse_brush_write (b : Brush) (fuel : ℕ) (rest : List Char) (l c : ℕ)
    (hfuel : b.faces.length < fuel)
    (htex : ∀ f ∈ b.faces, cleanToken f.texture) :
    ∃ l2 c2, parse_brush fuel ⟨brushCore b ++ rest, l, c⟩
      = .ok (roundBrush b, ⟨rest, l2, c2⟩) := by
  rw [brushCore_eq]
  have he1 : expectc '{' ⟨'{' :: '\n' :: ((if b.faces = [] then sp4 else sp4 ++ sp4)
      ++ faceLoopText b.faces rest), l, c⟩
      = .ok ((), ⟨'\n' :: ((if b.faces = [] then sp4 else sp4 ++ sp4)
          ++ faceLoopText b.faces rest), l, c + 1⟩) :=
    expectc_cons _ _ _ _ (by decide)
  obtain ⟨l3, c3, hskip⟩ := skip_wsc_state
    ('\n' :: (if b.faces = [] then sp4 else sp4 ++ sp4)) (faceLoopText b.faces rest)
    l (c + 1) (sp4_pad_chars _) (faceLoopText_head_cond b.faces rest)
  have hskip' : skip_whitespace_and_comments
      ⟨'\n' :: ((if b.faces = [] then sp4 else sp4 ++ sp4)
        ++ faceLoopText b.faces rest), l, c + 1⟩
      = ⟨faceLoopText b.faces rest, l3, c3⟩ := hskip
  obtain ⟨l4, c4, hloop⟩ := face_loop_write b.faces fuel [] rest l3 c3 hfuel htex
  have he2 : expectc '}' ⟨'}' :: rest, l4, c4⟩ = .ok ((), ⟨rest, l4, c4 + 1⟩) :=
    expectc_cons _ _ _ _ (by decide)
  refine ⟨l4, c4 + 1, ?_⟩
  simp only [parse_brush, he1, bindE_ok, hskip', hloop, he2]
  simp [roundBrush]
  rfl

end Tb

namespace Tb

/-! ### Round-trip machinery: properties -/

theorem parse_property_write (k v : String) (tail : List Char) (l c : ℕ)
    (hk : noQuote k) (hv : noQuote v) :
    ∃ l2 c2, parse_property
        ⟨'"' :: (k.data ++ ('"' :: ' ' :: '"' :: (v.data ++ '"' :: tail))), l, c⟩
      = .ok ((k, v), ⟨tail, l2, c2⟩) := by
  obtain ⟨l3, c3, h1⟩ :=
    parse_quoted_spec k.data (' ' :: '"' :: (v.data ++ '"' :: tail)) l c hk
  rw [string_mk_data] at h1
  obtain ⟨l4, c4, h2⟩ := skip_wsc_state [' '] ('"' :: (v.data ++ '"' :: tail)) l3 c3
    (by simp)
    (by
      intro ch hch
      have h0 : '"' = ch := by simpa using hch
      subst h0
      exact ⟨by decide, by decide⟩)
  have h2' : skip_whitespace_and_comments
      ⟨' ' :: '"' :: (v.data ++ '"' :: tail), l3, c3⟩
      = ⟨'"' :: (v.data ++ '"' :: tail), l4, c4⟩ := h2
  obtain ⟨l5, c5, h3⟩ := parse_quoted_spec v.data tail l4 c4 hv
  rw [string_mk_data] at h3
  refine ⟨l5, c5, ?_⟩
  simp only [parse_property, h1, bindE_ok, h2', h3]
  rfl

theorem lookup_none_of_not_mem (l : List (String × String)) (a : String)
    (h : a ∉ l.map Prod.fst) : l.lookup a = none := by
  induction l with
  | nil => rfl
  | cons kv t ih =>
    obtain ⟨k1, v1⟩ := kv
    simp only [List.map_cons, List.mem_cons] at h
    push_neg at h
    have hb : (a == k1) = false := by simpa using h.1
    simp [List.lookup, hb, ih h.2]

theorem lookup_append_none (l1 l2 : List (String × String)) (a : String)
    (h1 : l1.lookup a = none) (h2 : l2.lookup a = none) :
    (l1 ++ l2).lookup a = none := by
  induction l1 with
  | nil => simpa using h2
  | cons kv t ih =>
    obtain ⟨k1, v1⟩ := kv
    rcases hab : (a == k1) with _ | _
    · have h1' : List.lookup a t = none := by simpa [List.lookup, hab] using h1
      simpa [List.lookup, hab] using ih h1'
    · exfalso
      simp [List.lookup, hab] at h1

theorem pyDictSet_append (props : List (String × String)) (k v : String)
    (h : props.lookup k = none) : pyDictSet props k v = props ++ [(k, v)] := by
  induction props with
  | nil => rfl
  | cons kv t ih =>
    obtain ⟨k1, v1⟩ := kv
    rcases hab : (k == k1) with _ | _
    · have h' : List.lookup k t = none := by simpa [List.lookup, hab] using h
      have hne : ¬ (k1 = k) := by
        intro he
        subst he
        simp at hab
      simp only [pyDictSet]
      rw [if_neg hne, ih h']
      rfl
    · exfalso
      simp [List.lookup, hab] at h

theorem foldl_set_property : ∀ (ps : List (String × String)) (ent : Entity),
    (∀ k0 ∈ ps.map Prod.fst, ent.properties.lookup k0 = none) →
    (ps.map Prod.fst).Nodup →
    ps.foldl (fun a kv => a.set_property kv.1 kv.2) ent
      = ⟨((ps.lookup ("classname")).getD ent.classname),
          ent.properties ++ ps, ent.brushes⟩
  | [], ent, _, _ => by simp [List.lookup]
  | (k, v) :: ps, ent, hlook, hnd => by
    have hset : ent.set_property k v
        = ⟨(if k = "classname" then v else ent.classname),
            ent.properties ++ [(k, v)], ent.brushes⟩ := by
      unfold Entity.set_property
      rw [pyDictSet_append ent.properties k v (hlook k (by simp))]
      split <;> rfl
    have hnotps : k ∉ ps.map Prod.fst := by
      simp only [List.map_cons, List.nodup_cons] at hnd
      exact hnd.1
    have hlook2 : ∀ k0 ∈ ps.map Prod.fst,
        (ent.properties ++ [(k, v)]).lookup k0 = none := by
      intro k0 hk0
      apply lookup_append_none
      · exact hlook k0 (by simp [hk0])
      · apply lookup_none_of_not_mem
        intro hmem
        simp at hmem
        subst hmem
        exact hnotps hk0
    have hnd2 : (ps.map Prod.fst).Nodup := by
      simp only [List.map_cons, List.nodup_cons] at hnd
      exact hnd.2
    rw [List.foldl_cons, hset]
    rw [foldl_set_property ps _ (by simpa using hlook2) hnd2]
    simp only [List.append_assoc, List.singleton_append]
    by_cases hk : k = "classname"
    · subst hk
      have : ps.lookup ("classname") = none := lookup_none_of_not_mem ps _ hnotps
      simp [List.lookup, this]
    · have hne : ("classname" == k) = false := by
        simp
        intro he
        exact hk he.symm
      simp [List.lookup, hne, hk]

end Tb

namespace Tb

theorem prop_loop_write : ∀ (ps : List (String × String)) (fuel : ℕ) (ent : Entity)
    (pad cs : List Char) (l c : ℕ),
    ps.length < fuel →
    (∀ kv ∈ ps, noQuote kv.1 ∧ noQuote kv.2) →
    (∀ ch ∈ pad, ch = ' ' ∨ ch = '\n') →
    (∀ ch, cs.head? = some ch → pyIsSpace ch = false ∧ ch ≠ '/' ∧ ch ≠ '"') →
    ∃ l2 c2, prop_loop fuel ent
        ⟨(if ps = [] then cs else propsLoopText ps (pad ++ cs)), l, c⟩
      = .ok (ps.foldl (fun a kv => a.set_property kv.1 kv.2) ent, ⟨cs, l2, c2⟩)
  | [], fuel, ent, pad, cs, l, c, hfuel, _, _, hcs => by
    cases fuel with
    | zero => omega
    | succ F =>
      refine ⟨l, c, ?_⟩
      rw [if_pos rfl, prop_loop, if_neg (by
        intro hand
        rcases hand with ⟨hne, hq⟩
        cases cs with
        | nil => exact hne rfl
        | cons ch t =>
          have : ch = '"' := hq
          exact (hcs ch rfl).2.2 this)]
      simp
  | kv :: ps, fuel, ent, pad, cs, l, c, hfuel, hq, hpad, hcs => by
    cases fuel with
    | zero => omega
    | succ F =>
      rw [if_neg (by simp), propsLoopText]
      simp only [List.cons_append, List.append_assoc]
      obtain ⟨l3, c3, hpp⟩ := parse_property_write kv.1 kv.2
        ('\n' :: (if ps = [] then pad ++ cs else sp4 ++ propsLoopText ps (pad ++ cs)))
        l c (hq kv (by simp)).1 (hq kv (by simp)).2
      obtain ⟨l4, c4, hskip⟩ := skip_wsc_state
        ('\n' :: (if ps = [] then pad else sp4))
        (if ps = [] then cs else propsLoopText ps (pad ++ cs)) l3 c3
        (by
          intro ch hch
          rcases List.mem_cons.1 hch with h | h
          · right; exact h
          · revert h
            split
            · intro h; exact hpad ch h
            · intro h
              left
              simpa [sp4] using h)
        (by
          intro ch hch
          revert hch
          split
          · intro hch
            exact ⟨(hcs ch hch).1, (hcs ch hch).2.1⟩
          · rename_i hps
            intro hch
            cases ps with
            | nil => exact absurd rfl hps
            | cons p ps2 =>
              have h0 : '"' = ch := by simpa [propsLoopText] using hch
              subst h0
              exact ⟨by decide, by decide⟩)
      have harg : ('\n' :: (if ps = [] then pad else sp4))
            ++ (if ps = [] then cs else propsLoopText ps (pad ++ cs))
          = '\n' :: (if ps = [] then pad ++ cs
              else sp4 ++ propsLoopText ps (pad ++ cs)) := by
        split <;> rfl
      rw [harg] at hskip
      obtain ⟨l5, c5, hrec⟩ := prop_loop_write ps F (ent.set_property kv.1 kv.2)
        pad cs l4 c4 (by simp at hfuel; omega)
        (fun x hx => hq x (by simp [hx])) hpad hcs
      refine ⟨l5, c5, ?_⟩
      rw [prop_loop, if_pos (by
        constructor
        · simp
        · rfl)]
      rw [hpp]
      simp only [bindE_ok, hskip, hrec]
      simp

end Tb

namespace Tb

theorem brush_loop_write : ∀ (bs : List Brush) (fuel : ℕ) (ent : Entity)
    (pad cs : List Char) (l c : ℕ),
    bs.length + (bs.map (fun b => b.faces.length)).sum < fuel →
    (∀ b ∈ bs, ∀ f ∈ b.faces, cleanToken f.texture) →
    (∀ ch ∈ pad, ch = ' ' ∨ ch = '\n') →
    (∀ ch, cs.head? = some ch → pyIsSpace ch = false ∧ ch ≠ '/' ∧ ch ≠ '{') →
    ∃ l2 c2, brush_loop fuel ent
        ⟨(if bs = [] then cs else brushesLoopText bs (pad ++ cs)), l, c⟩
      = .ok ({ ent with brushes := ent.brushes ++ bs.map roundBrush }, ⟨cs, l2, c2⟩)
  | [], fuel, ent, pad, cs, l, c, hfuel, _, _, hcs => by
    cases fuel with
    | zero => omega
    | succ F =>
      refine ⟨l, c, ?_⟩
      rw [if_pos rfl, brush_loop, if_neg (by
        intro hand
        rcases hand with ⟨hne, hq⟩
        cases cs with
        | nil => exact hne rfl
        | cons ch t =>
          have : ch = '{' := hq
          exact (hcs ch rfl).2.2 this)]
      simp
  | b :: bs, fuel, ent, pad, cs, l, c, hfuel, htex, hpad, hcs => by
    cases fuel with
    | zero => omega
    | succ F =>
      rw [if_neg (by simp), brushesLoopText]
      obtain ⟨l3, c3, hpb⟩ := parse_brush_write b F
        ('\n' :: (if bs = [] then pad ++ cs else sp4 ++ brushesLoopText bs (pad ++ cs)))
        l c (by simp at hfuel; omega) (htex b (by simp))
      obtain ⟨l4, c4, hskip⟩ := skip_wsc_state
        ('\n' :: (if bs = [] then pad else sp4))
        (if bs = [] then cs else brushesLoopText bs (pad ++ cs)) l3 c3
        (by
          intro ch hch
          rcases List.mem_cons.1 hch with h | h
          · right; exact h
          · revert h
            split
            · intro h; exact hpad ch h
            · intro h
              left
              simpa [sp4] using h)
        (by
          intro ch hch
          revert hch
          split
          · intro hch
            exact ⟨(hcs ch hch).1, (hcs ch hch).2.1⟩
          · rename_i hbs
            intro hch
            cases bs with
            | nil => exact absurd rfl hbs
            | cons b2 bs2 =>
              have h0 : '{' = ch := by simpa [brushesLoopText, brushCore] using hch
              subst h0
              exact ⟨by decide, by decide⟩)
      have harg : ('\n' :: (if bs = [] then pad else sp4))
            ++ (if bs = [] then cs else brushesLoopText bs (pad ++ cs))
          = '\n' :: (if bs = [] then pad ++ cs
              else sp4 ++ brushesLoopText bs (pad ++ cs)) := by
        split <;> rfl
      rw [harg] at hskip
      obtain ⟨l5, c5, hrec⟩ := brush_loop_write bs F
        { ent with brushes := ent.brushes ++ [roundBrush b] }
        pad cs l4 c4 (by simp at hfuel; omega)
        (fun x hx => htex x (by simp [hx])) hpad hcs
      refine ⟨l5, c5, ?_⟩
      rw [brush_loop, if_pos (by
        constructor
        · simp [brushCore]
        · simp [peekc, brushCore])]
      rw [hpb]
      simp only [bindE_ok, hskip, hrec]
      simp

end Tb

namespace Tb

/-! ### Round-trip machinery: entities -/

/-- Fuel needed by parse_entity for an entity (one unit per property, per
brush and per face, plus one for each loop exit). -/
def needE (e : Entity) : ℕ :=
  e.properties.length + e.brushes.length
    + (e.brushes.map (fun b => b.faces.length)).sum + 1

theorem expectc_brace (t : List Char) (l c : ℕ) :
    expectc '{' ⟨'{' :: t, l, c⟩ = .ok ((), ⟨t, l, c + 1⟩) :=
  expectc_cons _ _ _ _ (by decide)

theorem expectc_cbrace (t : List Char) (l c : ℕ) :
    expectc '}' ⟨'}' :: t, l, c⟩ = .ok ((), ⟨t, l, c + 1⟩) :=
  expectc_cons _ _ _ _ (by decide)

theorem propsLoopText_head (ps : List (String × String)) (X : List Char)
    (h : ps ≠ []) : ∀ ch, (propsLoopText ps X).head? = some ch → ch = '"' := by
  cases ps with
  | nil => exact absurd rfl h
  | cons kv t =>
    intro ch hch
    have h0 : '"' = ch := by simpa [propsLoopText] using hch
    exact h0.symm

theorem brushesLoopText_head (bs : List Brush) (X : List Char)
    (h : bs ≠ []) : ∀ ch, (brushesLoopText bs X).head? = some ch → ch = '{' := by
  cases bs with
  | nil => exact absurd rfl h
  | cons b t =>
    intro ch hch
    have h0 : '{' = ch := by simpa [brushesLoopText, brushCore] using hch
    exact h0.symm

theorem parse_entity_write (e : Entity) (fuel : ℕ) (rest : List Char) (l c : ℕ)
    (hfuel : needE e ≤ fuel)
    (hWF : EntityWF e)
    (htex : ∀ b ∈ e.brushes, ∀ f ∈ b.faces, cleanToken f.texture) :
    ∃ l2 c2, parse_entity fuel ⟨write_entity e ++ rest, l, c⟩
      = .ok (roundEntity e, ⟨rest, l2, c2⟩) := by
  obtain ⟨hnd, hq, hsync⟩ := hWF
  have hfuelP : e.properties.length < fuel := by
    simp [needE] at hfuel
    omega
  have hfuelB : e.brushes.length + (e.brushes.map (fun b => b.faces.length)).sum
      < fuel := by
    simp [needE] at hfuel
    omega
  rw [write_entity_eq e rest (fun kv hkv => (hq kv hkv).2)]
  by_cases hP : e.properties = [] <;> by_cases hB : e.brushes = []
  · -- no properties, no brushes
    rw [if_pos hP, if_pos hB]
    obtain ⟨l3, c3, hskip⟩ := skip_wsc_state ['\n'] ('}' :: rest) l (c + 1)
      (by simp)
      (by
        intro ch hch
        have h0 : '}' = ch := by simpa using hch
        subst h0
        exact ⟨by decide, by decide⟩)
    have hskip' : skip_whitespace_and_comments ⟨'\n' :: '}' :: rest, l, c + 1⟩
        = ⟨'}' :: rest, l3, c3⟩ := hskip
    obtain ⟨l4, c4, hpl⟩ := prop_loop_write [] fuel (Entity.make ("") [] []) []
      ('}' :: rest) l3 c3 (by simp only [List.length_nil]; omega) (by simp) (by simp)
      (by
        intro ch hch
        have h0 : '}' = ch := by simpa using hch
        subst h0
        exact ⟨by decide, by decide, by decide⟩)
    rw [if_pos rfl] at hpl
    obtain ⟨l5, c5, hbl⟩ := brush_loop_write [] fuel
      (List.foldl (fun (a : Entity) (kv : String × String) => a.set_property kv.1 kv.2) (Entity.make ("") [] []) [])
      [] ('}' :: rest) l4 c4 (by simp only [List.length_nil, List.map_nil, List.sum_nil]; omega) (by simp) (by simp)
      (by
        intro ch hch
        have h0 : '}' = ch := by simpa using hch
        subst h0
        exact ⟨by decide, by decide, by decide⟩)
    rw [if_pos rfl] at hbl
    have hcn : e.classname = "" := by
      rw [hsync, hP]
      rfl
    refine ⟨l5, c5 + 1, ?_⟩
    simp only [parse_entity, expectc_brace, bindE_ok, hskip', hpl, hbl, expectc_cbrace]
    simp [roundEntity, Entity.make, hB, hP, hcn]
    rfl
  · -- no properties, some brushes
    rw [if_pos hP, if_neg hB]
    obtain ⟨l3, c3, hskip⟩ := skip_wsc_state ('\n' :: sp4)
      (brushesLoopText e.brushes ('}' :: rest)) l (c + 1)
      (by
        intro ch hch
        rcases List.mem_cons.1 hch with h | h
        · right; exact h
        · left
          simpa [sp4] using h)
      (by
        intro ch hch
        have h0 : ch = '{' := brushesLoopText_head _ _ hB ch hch
        subst h0
        exact ⟨by decide, by decide⟩)
    have hskip' : skip_whitespace_and_comments
        ⟨'\n' :: (sp4 ++ brushesLoopText e.brushes ('}' :: rest)), l, c + 1⟩
        = ⟨brushesLoopText e.brushes ('}' :: rest), l3, c3⟩ := hskip
    obtain ⟨l4, c4, hpl⟩ := prop_loop_write [] fuel (Entity.make ("") [] []) []
      (brushesLoopText e.brushes ('}' :: rest)) l3 c3 (by simp only [List.length_nil]; omega) (by simp) (by simp)
      (by
        intro ch hch
        have h0 : ch = '{' := brushesLoopText_head _ _ hB ch hch
        subst h0
        exact ⟨by decide, by decide, by decide⟩)
    rw [if_pos rfl] at hpl
    obtain ⟨l5, c5, hbl⟩ := brush_loop_write e.brushes fuel
      (List.foldl (fun (a : Entity) (kv : String × String) => a.set_property kv.1 kv.2) (Entity.make ("") [] []) [])
      [] ('}' :: rest) l4 c4 hfuelB htex (by simp)
      (by
        intro ch hch
        have h0 : '}' = ch := by simpa using hch
        subst h0
        exact ⟨by decide, by decide, by decide⟩)
    rw [if_neg hB] at hbl
    simp only [List.nil_append] at hbl
    have hcn : e.classname = "" := by
      rw [hsync, hP]
      rfl
    refine ⟨l5, c5 + 1, ?_⟩
    simp only [parse_entity, expectc_brace, bindE_ok, hskip', hpl, hbl, expectc_cbrace]
    simp [roundEntity, Entity.make, hP, hcn]
    rfl
  · -- some properties, no brushes
    rw [if_neg hP, if_pos hB]
    obtain ⟨l3, c3, hskip⟩ := skip_wsc_state ('\n' :: sp4)
      (propsLoopText e.properties ('}' :: rest)) l (c + 1)
      (by
        intro ch hch
        rcases List.mem_cons.1 hch with h | h
        · right; exact h
        · left
          simpa [sp4] using h)
      (by
        intro ch hch
        have h0 : ch = '"' := propsLoopText_head _ _ hP ch hch
        subst h0
        exact ⟨by decide, by decide⟩)
    have hskip' : skip_whitespace_and_comments
        ⟨'\n' :: (sp4 ++ propsLoopText e.properties ('}' :: rest)), l, c + 1⟩
        = ⟨propsLoopText e.properties ('}' :: rest), l3, c3⟩ := hskip
    obtain ⟨l4, c4, hpl⟩ := prop_loop_write e.properties fuel (Entity.make ("") [] [])
      [] ('}' :: rest) l3 c3 hfuelP hq (by simp)
      (by
        intro ch hch
        have h0 : '}' = ch := by simpa using hch
        subst h0
        exact ⟨by decide, by decide, by decide⟩)
    rw [if_neg hP] at hpl
    simp only [List.nil_append] at hpl
    have hFL : List.foldl (fun a kv => a.set_property kv.1 kv.2)
        (Entity.make ("") [] []) e.properties
        = ⟨((e.properties.lookup ("classname")).getD ""), e.properties, []⟩ := by
      have h0 := foldl_set_property e.properties (Entity.make ("") [] [])
        (by
          intro k0 hk0
          simp [Entity.make]) hnd
      simpa [Entity.make] using h0
    rw [hFL] at hpl
    obtain ⟨l5, c5, hbl⟩ := brush_loop_write [] fuel
      ⟨((e.properties.lookup ("classname")).getD ""), e.properties, []⟩
      [] ('}' :: rest) l4 c4 (by simp only [List.length_nil, List.map_nil, List.sum_nil]; omega) (by simp) (by simp)
      (by
        intro ch hch
        have h0 : '}' = ch := by simpa using hch
        subst h0
        exact ⟨by decide, by decide, by decide⟩)
    rw [if_pos rfl] at hbl
    refine ⟨l5, c5 + 1, ?_⟩
    simp only [parse_entity, expectc_brace, bindE_ok, hskip', hpl, hbl, expectc_cbrace]
    simp [roundEntity, hB, ← hsync]
    rfl
  · -- some properties, some brushes
    rw [if_neg hP, if_neg hB]
    obtain ⟨l3, c3, hskip⟩ := skip_wsc_state ('\n' :: sp4)
      (propsLoopText e.properties (sp4 ++ brushesLoopText e.brushes ('}' :: rest)))
      l (c + 1)
      (by
        intro ch hch
        rcases List.mem_cons.1 hch with h | h
        · right; exact h
        · left
          simpa [sp4] using h)
      (by
        intro ch hch
        have h0 : ch = '"' := propsLoopText_head _ _ hP ch hch
        subst h0
        exact ⟨by decide, by decide⟩)
    have hskip' : skip_whitespace_and_comments
        ⟨'\n' :: (sp4 ++ propsLoopText e.properties
          (sp4 ++ brushesLoopText e.brushes ('}' :: rest))), l, c + 1⟩
        = ⟨propsLoopText e.properties
            (sp4 ++ brushesLoopText e.brushes ('}' :: rest)), l3, c3⟩ := hskip
    obtain ⟨l4, c4, hpl⟩ := prop_loop_write e.properties fuel (Entity.make ("") [] [])
      sp4 (brushesLoopText e.brushes ('}' :: rest)) l3 c3 hfuelP hq
      (by
        intro ch hch
        left
        simpa [sp4] using hch)
      (by
        intro ch hch
        have h0 : ch = '{' := brushesLoopText_head _ _ hB ch hch
        subst h0
        exact ⟨by decide, by decide, by decide⟩)
    rw [if_neg hP] at hpl
    have hFL : List.foldl (fun a kv => a.set_property kv.1 kv.2)
        (Entity.make ("") [] []) e.properties
        = ⟨((e.properties.lookup ("classname")).getD ""), e.properties, []⟩ := by
      have h0 := foldl_set_property e.properties (Entity.make ("") [] [])
        (by
          intro k0 hk0
          simp [Entity.make]) hnd
      simpa [Entity.make] using h0
    rw [hFL] at hpl
    obtain ⟨l5, c5, hbl⟩ := brush_loop_write e.brushes fuel
      ⟨((e.properties.lookup ("classname")).getD ""), e.properties, []⟩
      [] ('}' :: rest) l4 c4 hfuelB htex (by simp)
      (by
        intro ch hch
        have h0 : '}' = ch := by simpa using hch
        subst h0
        exact ⟨by decide, by decide, by decide⟩)
    rw [if_neg hB] at hbl
    simp only [List.nil_append] at hbl
    refine ⟨l5, c5 + 1, ?_⟩
    simp only [parse_entity, expectc_brace, bindE_ok, hskip', hpl, hbl, expectc_cbrace]
    simp [roundEntity, ← hsync]
    rfl

end Tb

namespace Tb

/-! ### Round-trip machinery: the entity loop -/

theorem write_map_chars_head : ∀ (es : List Entity) (ch : Char),
    (write_map_chars es).head? = some ch → ch = '{'
  | [], ch, h => by simp [write_map_chars] at h
  | [e], ch, h => by
    have h0 : '{' = ch := by simpa [write_map_chars, write_entity] using h
    exact h0.symm
  | e :: e2 :: es, ch, h => by
    have h0 : '{' = ch := by simpa [write_map_chars, write_entity] using h
    exact h0.symm

theorem write_map_chars_cons (e : Entity) (es : List Entity) :
    write_map_chars (e :: es)
      = write_entity e
          ++ (if es = [] then [] else '\n' :: '\n' :: write_map_chars es) := by
  cases es <;> simp [write_map_chars]

theorem entity_loop_write : ∀ (es : List Entity) (fuel : ℕ) (acc : List Entity)
    (l c : ℕ),
    (es.map needE).sum + 1 ≤ fuel →
    (∀ e ∈ es, EntityWF e) →
    (∀ e ∈ es, ∀ b ∈ e.brushes, ∀ f ∈ b.faces, cleanToken f.texture) →
    ∃ l2 c2, entity_loop fuel acc ⟨write_map_chars es, l, c⟩
      = .ok (acc ++ es.map roundEntity, ⟨[], l2, c2⟩)
  | [], fuel, acc, l, c, hfuel, _, _ => by
    cases fuel with
    | zero => omega
    | succ F =>
      refine ⟨l, c, ?_⟩
      rw [show write_map_chars [] = [] from rfl, entity_loop, if_pos rfl]
      simp
  | e :: es, fuel, acc, l, c, hfuel, hWF, htex => by
    simp only [List.map_cons, List.sum_cons] at hfuel
    cases fuel with
    | zero => omega
    | succ F =>
      have hne1 : 1 ≤ needE e := by
        unfold needE
        omega
      rw [write_map_chars_cons]
      have hner : write_entity e
          ++ (if es = [] then [] else '\n' :: '\n' :: write_map_chars es) ≠ [] := by
        simp [write_entity]
      have hsk1 : skip_whitespace_and_comments ⟨write_entity e
          ++ (if es = [] then [] else '\n' :: '\n' :: write_map_chars es), l, c⟩
          = ⟨write_entity e
              ++ (if es = [] then [] else '\n' :: '\n' :: write_map_chars es), l, c⟩ := by
        unfold skip_whitespace_and_comments
        apply skip_wsc_stop
        intro ch hch
        have h0 : '{' = ch := by simpa [write_entity] using hch
        subst h0
        exact ⟨by decide, by decide⟩
      have hpk : peekc ⟨write_entity e
          ++ (if es = [] then [] else '\n' :: '\n' :: write_map_chars es), l, c⟩
          = '{' := by
        simp [peekc, write_entity]
      obtain ⟨l2, c2, hpe⟩ := parse_entity_write e F
        (if es = [] then [] else '\n' :: '\n' :: write_map_chars es) l c
        (by omega) (hWF e (by simp)) (fun b hb => htex e (by simp) b hb)
      obtain ⟨l3, c3, hsk2⟩ := skip_wsc_state
        (if es = [] then [] else ['\n', '\n']) (write_map_chars es) l2 c2
        (by
          split
          · intro ch hch
            simp at hch
          · intro ch hch
            right
            rcases List.mem_cons.1 hch with h | h
            · exact h
            · simpa using h)
        (by
          intro ch hch
          have h0 : ch = '{' := write_map_chars_head es ch hch
          subst h0
          exact ⟨by decide, by decide⟩)
      have harg : (if es = [] then ([] : List Char) else ['\n', '\n'])
            ++ write_map_chars es
          = (if es = [] then [] else '\n' :: '\n' :: write_map_chars es) := by
        cases es <;> simp [write_map_chars]
      rw [harg] at hsk2
      obtain ⟨l4, c4, hrec⟩ := entity_loop_write es F (acc ++ [roundEntity e]) l3 c3
        (by omega) (fun x hx => hWF x (by simp [hx])) (fun x hx => htex x (by simp [hx]))
      refine ⟨l4, c4, ?_⟩
      rw [entity_loop, if_neg hner]
      simp only [hsk1]
      rw [if_neg hner, if_pos hpk]
      simp only [hpe, bindE_ok, hsk2, hrec]
      simp

end Tb

namespace Tb

/-! ### Round-trip machinery: fuel sufficiency -/

theorem length_le_map_sum {α : Type} (g : α → ℕ) : ∀ (l : List α),
    (∀ x ∈ l, 1 ≤ g x) → l.length ≤ (l.map g).sum
  | [], _ => by simp
  | x :: t, h => by
    simp only [List.map_cons, List.sum_cons, List.length_cons]
    have h1 := h x (by simp)
    have h2 := length_le_map_sum g t (fun y hy => h y (by simp [hy]))
    omega

theorem write_brush_len_ge (b : Brush) :
    b.faces.length ≤ (write_brush b sp4).length := by
  unfold write_brush
  simp only [List.length_append, List.length_flatMap, List.length_cons, List.length_nil]
  have h := length_le_map_sum
    (List.length ∘ fun f : Face => sp4 ++ sp4 ++ write_face f ++ ['\n']) b.faces
    (fun f _ => by
      simp only [Function.comp, List.length_append, sp4, List.length_cons, List.length_nil]
      omega)
  omega

theorem brushes_measure_le : ∀ (bs : List Brush),
    bs.length + (bs.map (fun b => b.faces.length)).sum
      ≤ (bs.map (fun b => (write_brush b sp4).length + 1)).sum
  | [] => by simp
  | b :: bs => by
    simp only [List.map_cons, List.sum_cons, List.length_cons]
    have hb := write_brush_len_ge b
    have ih := brushes_measure_le bs
    omega

theorem needE_le (e : Entity) : needE e ≤ (write_entity e).length := by
  unfold needE write_entity
  simp only [List.length_append, List.length_flatMap, List.length_cons, List.length_nil]
  have hfun : (List.length ∘ fun b : Brush => write_brush b sp4 ++ ['\n'])
      = (fun b => (write_brush b sp4).length + 1) := by
    funext b
    simp
  rw [hfun]
  have h1 := length_le_map_sum (List.length ∘ prop_line) e.properties
    (fun kv _ => by
      simp only [Function.comp, prop_line, sp4, List.length_append, List.length_cons,
        List.length_nil]
      omega)
  have h2 := brushes_measure_le e.brushes
  omega

theorem docNeed_le : ∀ (es : List Entity),
    (es.map needE).sum ≤ (write_map_chars es).length
  | [] => by simp [write_map_chars]
  | [e] => by
    simpa [write_map_chars] using needE_le e
  | e :: e2 :: es => by
    rw [write_map_chars]
    simp only [List.map_cons, List.sum_cons, List.length_append, List.length_cons]
    have h1 := needE_le e
    have h2 := docNeed_le (e2 :: es)
    simp only [List.map_cons, List.sum_cons] at h2
    omega

/-! ### Round-trip machinery: the whole document -/

theorem parse_write (D : MapFile) (hWF : DocWF D) (htex : DocTexWF D) :
    parse_map (write_map_to_string D) = .ok (roundDoc D) := by
  obtain ⟨es⟩ := D
  have hWF' : ∀ e ∈ es, EntityWF e := hWF
  have htex' : ∀ e ∈ es, ∀ b ∈ e.brushes, ∀ f ∈ b.faces, cleanToken f.texture := htex
  cases es with
  | nil => decide
  | cons e es2 =>
    have hski : skip_whitespace_and_comments ⟨write_map_chars (e :: es2), 1, 1⟩
        = ⟨write_map_chars (e :: es2), 1, 1⟩ := by
      unfold skip_whitespace_and_comments
      apply skip_wsc_stop
      intro ch hch
      have h0 : ch = '{' := write_map_chars_head _ ch hch
      subst h0
      exact ⟨by decide, by decide⟩
    obtain ⟨l2, c2, hloop⟩ := entity_loop_write (e :: es2)
      ((write_map_chars (e :: es2)).length + 1) [] 1 1
      (by
        have := docNeed_le (e :: es2)
        omega)
      hWF' htex'
    show parse (write_map_chars (e :: es2)) = _
    simp only [parse, hski, hloop, bindE_ok]
    simp [roundDoc]
    rfl

theorem write_face_round (f : Face) : write_face (roundFace f) = write_face f := by
  simp [write_face, write_point, roundFace, r6v, format_float_r6]

theorem write_brush_round (b : Brush) : write_brush (roundBrush b) sp4 = write_brush b sp4 := by
  unfold write_brush roundBrush
  have h : ∀ fs : List Face,
      (fs.map roundFace).flatMap (fun f => sp4 ++ (sp4 ++ (write_face f ++ ['\n'])))
        = fs.flatMap (fun f => sp4 ++ (sp4 ++ (write_face f ++ ['\n']))) := by
    intro fs
    induction fs with
    | nil => rfl
    | cons f t ih => simp [List.flatMap_cons, ih, write_face_round]
  simp [h]

theorem write_entity_round (e : Entity) : write_entity (roundEntity e) = write_entity e := by
  unfold write_entity roundEntity
  have h : ∀ bs : List Brush,
      (bs.map roundBrush).flatMap (fun b => write_brush b sp4 ++ ['\n'])
        = bs.flatMap (fun b => write_brush b sp4 ++ ['\n']) := by
    intro bs
    induction bs with
    | nil => rfl
    | cons b t ih => simp [List.flatMap_cons, ih, write_brush_round]
  simp [h]

theorem write_map_chars_round : ∀ (es : List Entity),
    write_map_chars (es.map roundEntity) = write_map_chars es
  | [] => rfl
  | [e] => by simp [write_map_chars, write_entity_round]
  | e :: e2 :: es => by
    show write_entity (roundEntity e) ++ '\n' :: '\n'
        :: write_map_chars ((e2 :: es).map roundEntity) = _
    rw [write_map_chars, write_entity_round, write_map_chars_round (e2 :: es)]

theorem write_roundDoc (D : MapFile) :
    write_map_to_string (roundDoc D) = write_map_to_string D := by
  show String.mk (write_map_chars (D.entities.map roundEntity)) = _
  rw [write_map_chars_round]
  rfl

end Tb

namespace Tb

/-! ### The parser's output is wellformed -/

theorem pyDictSet_mem : ∀ (props : List (String × String)) (k v : String)
    (kv' : String × String), kv' ∈ pyDictSet props k v → kv' ∈ props ∨ kv' = (k, v)
  | [], k, v, kv', h => by
    right
    simpa [pyDictSet] using h
  | (k1, v1) :: rest, k, v, kv', h => by
    rw [pyDictSet] at h
    split at h
    · rcases List.mem_cons.1 h with h0 | h0
      · right; exact h0
      · left; exact List.mem_cons_of_mem _ h0
    · rcases List.mem_cons.1 h with h0 | h0
      · left
        simp [h0]
      · rcases pyDictSet_mem rest k v kv' h0 with h1 | h1
        · left; exact List.mem_cons_of_mem _ h1
        · right; exact h1

theorem pyDictSet_keys_subset : ∀ (props : List (String × String)) (k v : String)
    (x : String), x ∈ (pyDictSet props k v).map Prod.fst →
      x ∈ props.map Prod.fst ∨ x = k := by
  intro props k v x hx
  simp only [List.mem_map] at hx
  obtain ⟨kv', hkv', hfst⟩ := hx
  rcases pyDictSet_mem props k v kv' hkv' with h | h
  · left
    rw [← hfst]
    exact List.mem_map_of_mem Prod.fst h
  · right
    rw [← hfst, h]

theorem pyDictSet_nodup : ∀ (props : List (String × String)) (k v : String),
    (props.map Prod.fst).Nodup → ((pyDictSet props k v).map Prod.fst).Nodup
  | [], k, v, _ => by simp [pyDictSet]
  | (k1, v1) :: rest, k, v, hnd => by
    simp only [List.map_cons, List.nodup_cons] at hnd
    rw [pyDictSet]
    split
    · rename_i heq
      subst heq
      simp only [List.map_cons, List.nodup_cons]
      exact hnd
    · rename_i hne
      simp only [List.map_cons, List.nodup_cons]
      constructor
      · intro hmem
        rcases pyDictSet_keys_subset rest k v k1 hmem with h | h
        · exact hnd.1 h
        · exact hne h
      · exact pyDictSet_nodup rest k v hnd.2

theorem lookup_pyDictSet_ne : ∀ (props : List (String × String)) (k v k' : String),
    k' ≠ k → (pyDictSet props k v).lookup k' = props.lookup k'
  | [], k, v, k', h => by
    have hb : (k' == k) = false := by simpa using h
    simp [pyDictSet, List.lookup, hb]
  | (k1, v1) :: rest, k, v, k', h => by
    rw [pyDictSet]
    split
    · rename_i heq
      subst heq
      have hb : (k' == k1) = false := by simpa using h
      simp [List.lookup, hb]
    · rcases hb : (k' == k1) with _ | _
      · simp [List.lookup, hb, lookup_pyDictSet_ne rest k v k' h]
      · simp [List.lookup, hb]

theorem set_property_WF (e : Entity) (k v : String) (hw : EntityWF e)
    (hk : noQuote k) (hv : noQuote v) : EntityWF (e.set_property k v) := by
  obtain ⟨hnd, hq, hsync⟩ := hw
  have hprops : (e.set_property k v).properties = pyDictSet e.properties k v := by
    unfold Entity.set_property
    split <;> rfl
  have hcn : (e.set_property k v).classname
      = if k = "classname" then v else e.classname := by
    unfold Entity.set_property
    split <;> simp [*]
  refine ⟨?_, ?_, ?_⟩
  · rw [hprops]
    exact pyDictSet_nodup e.properties k v hnd
  · intro kv' hkv'
    rw [hprops] at hkv'
    rcases pyDictSet_mem e.properties k v kv' hkv' with h | h
    · exact hq kv' h
    · rw [h]
      exact ⟨hk, hv⟩
  · rw [hcn, hprops]
    by_cases hkc : k = "classname"
    · subst hkc
      rw [if_pos rfl, lookup_pyDictSet_self]
      rfl
    · rw [if_neg hkc, lookup_pyDictSet_ne e.properties k v _ (fun h0 => hkc h0.symm)]
      exact hsync

theorem scanQuoted_no_quote : ∀ (cs : List Char) (l c : ℕ),
    ∀ ch ∈ (scanQuoted cs l c).1, ch ≠ '"'
  | [], l, c => by simp [scanQuoted]
  | ch0 :: r, l, c => by
    intro ch hch
    by_cases hq : ch0 = '"'
    · rw [scanQuoted, if_pos hq] at hch
      simp at hch
    · rw [scanQuoted, if_neg hq] at hch
      by_cases hn : ch0 = '\n'
      · rw [if_pos hn] at hch
        simp only [] at hch
        rcases List.mem_cons.1 hch with h | h
        · rw [h]; exact hq
        · exact scanQuoted_no_quote r (l + 1) 1 ch h
      · rw [if_neg hn] at hch
        simp only [] at hch
        rcases List.mem_cons.1 hch with h | h
        · rw [h]; exact hq
        · exact scanQuoted_no_quote r l (c + 1) ch h

theorem parse_quoted_noQuote (st : PSt) (s : String) (st' : PSt)
    (h : parse_quoted_string st = .ok (s, st')) : noQuote s := by
  unfold parse_quoted_string at h
  cases hexp : expectc '"' st with
  | error e =>
    rw [hexp, bindE_err] at h
    exact absurd h (by simp)
  | ok p =>
    obtain ⟨u, st1⟩ := p
    rw [hexp] at h
    simp only [bindE_ok] at h
    cases hexp2 : expectc '"' (scanQuoted st1.rest st1.line st1.column).2 with
    | error e =>
      rw [hexp2, bindE_err] at h
      exact absurd h (by simp)
    | ok p2 =>
      obtain ⟨u2, st3⟩ := p2
      rw [hexp2] at h
      simp only [bindE_ok] at h
      have h' : Except.ok (String.mk (scanQuoted st1.rest st1.line st1.column).1, st3)
          = Except.ok (s, st') := h
      have hs : String.mk (scanQuoted st1.rest st1.line st1.column).1 = s := by
        injection h' with h''
        exact congrArg Prod.fst h''
      rw [← hs]
      intro c0 hc0
      exact scanQuoted_no_quote st1.rest st1.line st1.column c0 hc0

theorem parse_property_noQuote (st : PSt) (k v : String) (st' : PSt)
    (h : parse_property st = .ok ((k, v), st')) : noQuote k ∧ noQuote v := by
  unfold parse_property at h
  cases h1 : parse_quoted_string st with
  | error e =>
    rw [h1, bindE_err] at h
    exact absurd h (by simp)
  | ok p =>
    obtain ⟨k1, st1⟩ := p
    rw [h1] at h
    simp only [bindE_ok] at h
    cases h2 : parse_quoted_string (skip_whitespace_and_comments st1) with
    | error e =>
      rw [h2, bindE_err] at h
      exact absurd h (by simp)
    | ok p2 =>
      obtain ⟨v1, st3⟩ := p2
      rw [h2] at h
      simp only [bindE_ok] at h
      have h' : Except.ok ((k1, v1), st3) = Except.ok ((k, v), st') := h
      have hp : (k1, v1) = (k, v) := by
        injection h' with h''
        exact congrArg Prod.fst h''
      have hk1 : k1 = k := congrArg Prod.fst hp
      have hv1 : v1 = v := congrArg Prod.snd hp
      rw [← hk1, ← hv1]
      exact ⟨parse_quoted_noQuote st k1 st1 h1,
        parse_quoted_noQuote (skip_whitespace_and_comments st1) v1 st3 h2⟩

end Tb

namespace Tb

theorem prop_loop_WF : ∀ (fuel : ℕ) (ent : Entity) (st : PSt) (ent' : Entity)
    (st' : PSt), prop_loop fuel ent st = .ok (ent', st') → EntityWF ent →
    EntityWF ent'
  | 0, ent, st, ent', st', h, _ => by simp [prop_loop] at h
  | fuel + 1, ent, st, ent', st', h, hw => by
    rw [prop_loop] at h
    split at h
    · cases hpp : parse_property st with
      | error e =>
        rw [hpp, bindE_err] at h
        exact absurd h (by simp)
      | ok p =>
        obtain ⟨kv, st1⟩ := p
        rw [hpp] at h
        simp only [bindE_ok] at h
        have hkv := parse_property_noQuote st kv.1 kv.2 st1 hpp
        exact prop_loop_WF fuel _ _ ent' st' h
          (set_property_WF ent kv.1 kv.2 hw hkv.1 hkv.2)
    · have h' : Except.ok (ent, st) = Except.ok (ent', st') := h
      have : ent = ent' := by
        injection h' with h''
        exact congrArg Prod.fst h''
      rw [← this]
      exact hw

theorem brush_loop_WF : ∀ (fuel : ℕ) (ent : Entity) (st : PSt) (ent' : Entity)
    (st' : PSt), brush_loop fuel ent st = .ok (ent', st') → EntityWF ent →
    EntityWF ent'
  | 0, ent, st, ent', st', h, _ => by simp [brush_loop] at h
  | fuel + 1, ent, st, ent', st', h, hw => by
    rw [brush_loop] at h
    split at h
    · cases hpb : parse_brush fuel st with
      | error e =>
        rw [hpb, bindE_err] at h
        exact absurd h (by simp)
      | ok p =>
        obtain ⟨b, st1⟩ := p
        rw [hpb] at h
        simp only [bindE_ok] at h
        exact brush_loop_WF fuel _ _ ent' st' h hw
    · have h' : Except.ok (ent, st) = Except.ok (ent', st') := h
      have : ent = ent' := by
        injection h' with h''
        exact congrArg Prod.fst h''
      rw [← this]
      exact hw

theorem parse_entity_WF (fuel : ℕ) (st : PSt) (e : Entity) (st' : PSt)
    (h : parse_entity fuel st = .ok (e, st')) : EntityWF e := by
  unfold parse_entity at h
  cases hexp : expectc '{' st with
  | error err =>
    rw [hexp, bindE_err] at h
    exact absurd h (by simp)
  | ok p =>
    obtain ⟨u, st1⟩ := p
    rw [hexp] at h
    simp only [bindE_ok] at h
    cases hpl : prop_loop fuel (Entity.make ("") [] [])
        (skip_whitespace_and_comments st1) with
    | error err =>
      rw [hpl, bindE_err] at h
      exact absurd h (by simp)
    | ok p1 =>
      obtain ⟨ent1, st3⟩ := p1
      rw [hpl] at h
      simp only [bindE_ok] at h
      cases hbl : brush_loop fuel ent1 st3 with
      | error err =>
        rw [hbl, bindE_err] at h
        exact absurd h (by simp)
      | ok p2 =>
        obtain ⟨ent2, st4⟩ := p2
        rw [hbl] at h
        simp only [bindE_ok] at h
        cases hexp2 : expectc '}' st4 with
        | error err =>
          rw [hexp2, bindE_err] at h
          exact absurd h (by simp)
        | ok p3 =>
          obtain ⟨u2, st5⟩ := p3
          rw [hexp2] at h
          simp only [bindE_ok] at h
          have h' : Except.ok (ent2, st5) = Except.ok (e, st') := h
          have he : ent2 = e := by
            injection h' with h''
            exact congrArg Prod.fst h''
          have h1 : EntityWF (Entity.make ("") [] []) :=
            ⟨by simp [Entity.make], by simp [Entity.make], rfl⟩
          rw [← he]
          exact brush_loop_WF fuel ent1 st3 ent2 st4 hbl
            (prop_loop_WF fuel _ _ ent1 st3 hpl h1)

theorem entity_loop_WF : ∀ (fuel : ℕ) (acc : List Entity) (st : PSt)
    (es : List Entity) (st' : PSt), entity_loop fuel acc st = .ok (es, st') →
    (∀ e ∈ acc, EntityWF e) → ∀ e ∈ es, EntityWF e
  | 0, acc, st, es, st', h, _ => by simp [entity_loop] at h
  | fuel + 1, acc, st, es, st', h, hacc => by
    rw [entity_loop] at h
    split at h
    · have h' : Except.ok (acc, st) = Except.ok (es, st') := h
      have : acc = es := by
        injection h' with h''
        exact congrArg Prod.fst h''
      rw [← this]
      exact hacc
    · split at h
      · have h' : Except.ok (acc, skip_whitespace_and_comments st)
            = Except.ok (es, st') := h
        have : acc = es := by
          injection h' with h''
          exact congrArg Prod.fst h''
        rw [← this]
        exact hacc
      · split at h
        · cases hpe : parse_entity fuel (skip_whitespace_and_comments st) with
          | error err =>
            rw [hpe, bindE_err] at h
            exact absurd h (by simp)
          | ok p =>
            obtain ⟨e1, st2⟩ := p
            rw [hpe] at h
            simp only [bindE_ok] at h
            refine entity_loop_WF fuel (acc ++ [e1]) _ es st' h ?_
            intro x hx
            rcases List.mem_append.1 hx with h0 | h0
            · exact hacc x h0
            · have : x = e1 := by simpa using h0
              rw [this]
              exact parse_entity_WF fuel _ e1 st2 hpe
        · exact absurd h (by simp)

theorem parse_DocWF (s : String) (D : MapFile) (h : parse_map s = .ok D) :
    DocWF D := by
  unfold parse_map parse at h
  cases hel : entity_loop (s.data.length + 1) []
      (skip_whitespace_and_comments ⟨s.data, 1, 1⟩) with
  | error err =>
    rw [hel, bindE_err] at h
    exact absurd h (by simp)
  | ok p =>
    obtain ⟨es, stf⟩ := p
    rw [hel] at h
    simp only [bindE_ok] at h
    have h' : Except.ok (⟨es⟩ : MapFile) = Except.ok D := h
    have hD : (⟨es⟩ : MapFile) = D := by
      injection h' with h''
    intro e he
    rw [← hD] at he
    exact entity_loop_WF _ _ _ es stf hel
      (fun x hx => absurd hx (List.not_mem_nil x)) e he

end Tb

namespace Tb

instance cleanToken_decidable (s : String) : Decidable (cleanToken s) := by
  unfold cleanToken
  exact inferInstance

instance docTexWF_decidable (D : MapFile) : Decidable (DocTexWF D) := by
  unfold DocTexWF
  exact inferInstance

/-- C1 (amended): for any document D produced by parsing (in particular by
parsing written output), if every face texture of D is a clean token
(nonempty, not starting with a double quote, and containing no whitespace
or brace/parenthesis delimiters), then writing D, parsing the result and
writing again reproduces write(D) character for character: the
parse-then-write cycle is a fixed point after the first pass.  Without the
clean-texture restriction the property fails, as the counterexample
shows. -/
theorem claim_C1_amended (s : String) (D : MapFile)
    (h : parse_map s = .ok D) (htex : DocTexWF D) :
    ∃ D1, parse_map (write_map_to_string D) = .ok D1
      ∧ write_map_to_string D1 = write_map_to_string D :=
  ⟨roundDoc D, parse_write D (parse_DocWF s D h) htex, write_roundDoc D⟩

theorem claim_C1_witness :
    ∃ D1, parse_map (write_map_to_string ⟨[⟨"", [], []⟩]⟩) = .ok D1
      ∧ write_map_to_string D1 = write_map_to_string ⟨[⟨"", [], []⟩]⟩ :=
  claim_C1_amended ("\x7b \x7d") ⟨[⟨"", [], []⟩]⟩ (by decide) (by decide)

end Tb
